import Mathlib

/-!
Verification of the sqlite-scanner repository (main.go) against its
natural-language specification.

The Go program is embedded shallowly:

* I/O-dependent outcomes (open / read / stat failures, directory read
  failures, symlink resolution, the working directory) are supplied by
  explicit oracle functions, so every definition is a pure, executable
  function of those oracles;
* byte contents of files are lists of naturals;
* the concurrent worker pool of scanPaths is modelled by an explicit
  schedule assigning each enqueued path to one worker, each worker
  processing its assigned paths in order; the collected results are
  compared as multisets, since arrival order between workers is
  scheduler-dependent in the real program;
* rendered output (fmt.Println / Printf) is modelled as the string the
  program writes to stdout.
-/

set_option autoImplicit false

/-- Errors visible to the program through the os / io/fs interfaces:
either a permission-denied error (matched by errors.Is(err, fs.ErrPermission))
or any other error, tagged by an opaque code. -/
inductive IOErr where
  | permission
  | other (code : Nat)
deriving DecidableEq, Repr

/-- What the operating system lets checkSQLiteMagic observe at one path:
the outcome of os.Open, the byte contents readable from the handle, a
non-EOF read failure injected by the device, and the outcome of f.Stat. -/
structure FileModel where
  openErr : Option IOErr
  contents : List Nat
  readErr : Option IOErr
  statErr : Option IOErr
deriving DecidableEq, Repr

/-- var sqliteMagic = []byte("SQLite format 3\x00") -/
def sqliteMagic : List Nat := ("SQLite format 3".data.map Char.toNat) ++ [0]

/-- type matchResult struct { Path string; Size int64 } -/
structure matchResult where
  Path : String
  Size : Int
deriving DecidableEq, Repr

/-- The zero value matchResult{} returned by Go on non-match paths. -/
def emptyMatch : matchResult := ⟨"", 0⟩

/-- func checkSQLiteMagic(path string) (matchResult, bool, error).
Opens the file, reads exactly len(sqliteMagic) bytes with io.ReadFull
(EOF / ErrUnexpectedEOF on a short file is a definitive no-match, not an
error), compares against the magic, and stats the file for its size. -/
def checkSQLiteMagic (fileAt : String → FileModel) (path : String) :
    matchResult × Bool × Option IOErr :=
  match (fileAt path).openErr with
  | some e => (emptyMatch, false, some e)
  | none =>
    match (fileAt path).readErr with
    | some e => (emptyMatch, false, some e)
    | none =>
      if (fileAt path).contents.length < sqliteMagic.length then
        (emptyMatch, false, none)
      else if (fileAt path).contents.take sqliteMagic.length = sqliteMagic then
        match (fileAt path).statErr with
        | some e => (emptyMatch, false, some e)
        | none => (⟨path, ((fileAt path).contents.length : Int)⟩, true, none)
      else (emptyMatch, false, none)

theorem sqliteMagic_length : sqliteMagic.length = 16 := by decide

/-- C1: for every path whose file can be opened, read and statted without
an I/O fault, the prober matches iff the first 16 bytes equal the fixed
signature "SQLite format 3" followed by one NUL byte; a match records the
file's exact byte length as its size; every file shorter than 16 bytes is
a no-match with a nil error; and no error is returned. -/
theorem checkSQLiteMagic_spec (fileAt : String → FileModel) (path : String)
    (ho : (fileAt path).openErr = none) (hr : (fileAt path).readErr = none)
    (hs : (fileAt path).statErr = none) :
    ((checkSQLiteMagic fileAt path).2.1 = true ↔
      (fileAt path).contents.take 16 = sqliteMagic) ∧
    ((checkSQLiteMagic fileAt path).2.1 = true →
      (checkSQLiteMagic fileAt path).1 =
        ⟨path, ((fileAt path).contents.length : Int)⟩) ∧
    ((fileAt path).contents.length < 16 →
      checkSQLiteMagic fileAt path = (emptyMatch, false, none)) ∧
    (checkSQLiteMagic fileAt path).2.2 = none := by
  have hml : sqliteMagic.length = 16 := sqliteMagic_length
  unfold checkSQLiteMagic
  rw [ho, hr]
  simp only [hml]
  by_cases hshort : (fileAt path).contents.length < 16
  · have hne : ¬ (fileAt path).contents.take 16 = sqliteMagic := by
      intro h
      have : ((fileAt path).contents.take 16).length = 16 := by
        rw [h, hml]
      rw [List.length_take] at this
      omega
    simp [hshort, hne]
  · simp only [if_neg hshort]
    by_cases heq : (fileAt path).contents.take 16 = sqliteMagic
    · rw [hs]
      simp [heq]
      omega
    · simp [heq, hshort]

/-- Witness for C1 at a concrete file: 16 magic bytes plus 2 payload bytes
match with recorded size 18, and a 3-byte file is a clean no-match. -/
theorem checkSQLiteMagic_spec_witness :
    (checkSQLiteMagic (fun _ => ⟨none, sqliteMagic ++ [1, 2], none, none⟩) "a.db").2.1
        = true ∧
    (checkSQLiteMagic (fun _ => ⟨none, sqliteMagic ++ [1, 2], none, none⟩) "a.db").1
        = ⟨"a.db", 18⟩ ∧
    checkSQLiteMagic (fun _ => ⟨none, [1, 2, 3], none, none⟩) "b.db"
        = (emptyMatch, false, none) := by
  have h1 := checkSQLiteMagic_spec (fun _ => ⟨none, sqliteMagic ++ [1, 2], none, none⟩)
    "a.db" rfl rfl rfl
  have h2 := checkSQLiteMagic_spec (fun _ => ⟨none, [1, 2, 3], none, none⟩)
    "b.db" rfl rfl rfl
  have hm : (((fun (_ : String) => (⟨none, sqliteMagic ++ [1, 2], none, none⟩ : FileModel))
      "a.db").contents.take 16) = sqliteMagic := by decide
  have hb := h1.1.mpr hm
  refine ⟨hb, ?_, h2.2.2.1 (by decide)⟩
  have := h1.2.1 hb
  simpa using this

/-! ## Directory traversal (filepath.WalkDir with the closure of scanPaths) -/

/-- One entry of the scanned tree: a regular file, a non-regular entry
(symlink, socket, ...) that WalkDir visits but the closure never enqueues,
or a directory whose os.ReadDir outcome may be an error. -/
inductive FSNode where
  | file (name : String)
  | special (name : String)
  | dir (name : String) (readDirErr : Option IOErr) (children : List FSNode)
deriving Repr

/-- Base name of a tree entry, as returned by DirEntry.Name. -/
def FSNode.name : FSNode → String
  | .file n => n
  | .special n => n
  | .dir n _ _ => n

/-- What os.Lstat finds at a scan root: the tree rooted there, or the
lstat failure WalkDir reports to the callback for the root itself. -/
inductive RootEntry where
  | missing (e : IOErr)
  | ok (node : FSNode)

/-- filepath.Join of a parent path and a child name. -/
def joinPath (p n : String) : String := p ++ "/" ++ n

mutual

/-- filepath.WalkDir's walkDir applied to the closure in scanPaths: emits
every regular file's path in tree order; a permission-denied ReadDir error
makes the callback return nil (children skipped, traversal continues);
any other ReadDir error is returned by the callback and aborts the walk. -/
def walkNode (path : String) : FSNode → List String × Option IOErr
  | .file _ => ([path], none)
  | .special _ => ([], none)
  | .dir _ rerr children =>
    match rerr with
    | some e => if e = IOErr.permission then ([], none) else ([], some e)
    | none => walkList path children

/-- The loop over a directory's entries: a child whose walk returns an
error stops the loop and propagates the error; otherwise the emitted
paths accumulate in order. -/
def walkList (path : String) : List FSNode → List String × Option IOErr
  | [] => ([], none)
  | c :: rest =>
    match walkNode (joinPath path c.name) c with
    | (ps, some e) => (ps, some e)
    | (ps, none) =>
      match walkList path rest with
      | (qs, e2) => (ps ++ qs, e2)

end

/-- filepath.WalkDir(root, fn): an lstat failure on the root itself goes
through the same callback (permission suppressed, anything else returned). -/
def walkDirRoot (rootPath : String) : RootEntry → List String × Option IOErr
  | .missing e => if e = IOErr.permission then ([], none) else ([], some e)
  | .ok nd => walkNode rootPath nd

/-- The file system as the two oracle views scanPaths consumes:
what WalkDir finds at each root, and what open/read/stat see at each path. -/
structure FS where
  rootAt : String → RootEntry
  fileAt : String → FileModel

/-- All paths sent on the paths channel, per root in root order (the real
goroutines interleave these lists; multiset statements are order-blind). -/
def enqueuedPaths (fs : FS) : List String → List String
  | [] => []
  | r :: rs => (walkDirRoot r (fs.rootAt r)).1 ++ enqueuedPaths fs rs

/-- The per-root walk errors joined into scanPaths' combined walk error
(errors.Join of the non-nil ones); [] models a nil combined error. -/
def scanWalkErrs (fs : FS) : List String → List IOErr
  | [] => []
  | r :: rs => ((walkDirRoot r (fs.rootAt r)).2).toList ++ scanWalkErrs fs rs

mutual

/-- The regular files reachable from a node when subtrees whose directory
cannot be read (in a clean scan: exactly the permission-denied ones) are
ignored. Defined from the tree alone, independently of the walk. -/
def reachNode (path : String) : FSNode → List String
  | .file _ => [path]
  | .special _ => []
  | .dir _ rerr children =>
    match rerr with
    | some _ => []
    | none => reachList path children

/-- Reachable regular files below a list of siblings. -/
def reachList (path : String) : List FSNode → List String
  | [] => []
  | c :: rest => reachNode (joinPath path c.name) c ++ reachList path rest

end

/-- Reachable regular files below one root. -/
def reachRoot (r : String) : RootEntry → List String
  | .missing _ => []
  | .ok nd => reachNode r nd

/-- Reachable regular files below all roots, in root order. -/
def reachableFiles (fs : FS) : List String → List String
  | [] => []
  | r :: rs => reachRoot r (fs.rootAt r) ++ reachableFiles fs rs

/-! ## The worker pool -/

/-- What one worker does with one dequeued path. -/
inductive WorkerOut where
  | hit (m : matchResult)
  | warn (p : String) (e : IOErr)
  | skip
deriving DecidableEq, Repr

/-- The worker loop body of scanPaths: probe the path; a permission error
is dropped, any other error is sent on errs wrapped with the path, a match
is sent on matches, a no-match produces nothing. -/
def workerStep (fs : FS) (p : String) : WorkerOut :=
  match checkSQLiteMagic fs.fileAt p with
  | (res, ok, err) =>
    match err with
    | some e => if e = IOErr.permission then .skip else .warn p e
    | none => if ok then .hit res else .skip

/-- The match a probe of p contributes, if any. -/
def probeMatch (fs : FS) (p : String) : Option matchResult :=
  match workerStep fs p with
  | .hit m => some m
  | _ => none

/-- The warning a probe of p contributes, if any. -/
def probeWarn (fs : FS) (p : String) : Option (String × IOErr) :=
  match workerStep fs p with
  | .warn q e => some (q, e)
  | _ => none

/-- One worker processing its assigned paths in order: the matches it
sends on the matches channel and the warnings it sends on errs. -/
def workerRun (fs : FS) : List String → List matchResult × List (String × IOErr)
  | [] => ([], [])
  | p :: ps =>
    match workerStep fs p, workerRun fs ps with
    | .hit m, (ms, ws) => (m :: ms, ws)
    | .warn q e, (ms, ws) => (ms, (q, e) :: ws)
    | .skip, r => r

theorem workerRun_fst (fs : FS) :
    ∀ ps : List String, (workerRun fs ps).1 = ps.filterMap (probeMatch fs)
  | [] => rfl
  | p :: ps => by
    have ih := workerRun_fst fs ps
    cases hr : workerRun fs ps with
    | mk ms ws =>
      rw [hr] at ih
      have ih2 : ms = List.filterMap (probeMatch fs) ps := ih
      cases hs : workerStep fs p with
      | hit m =>
        have hp : probeMatch fs p = some m := by simp [probeMatch, hs]
        simp [workerRun, hs, hr, List.filterMap_cons, hp, ih2]
      | warn q e =>
        have hp : probeMatch fs p = none := by simp [probeMatch, hs]
        simp [workerRun, hs, hr, List.filterMap_cons, hp, ih2]
      | skip =>
        have hp : probeMatch fs p = none := by simp [probeMatch, hs]
        simp [workerRun, hs, hr, List.filterMap_cons, hp, ih2]

theorem workerRun_snd (fs : FS) :
    ∀ ps : List String, (workerRun fs ps).2 = ps.filterMap (probeWarn fs)
  | [] => rfl
  | p :: ps => by
    have ih := workerRun_snd fs ps
    cases hr : workerRun fs ps with
    | mk ms ws =>
      rw [hr] at ih
      have ih2 : ws = List.filterMap (probeWarn fs) ps := ih
      cases hs : workerStep fs p with
      | hit m =>
        have hp : probeWarn fs p = none := by simp [probeWarn, hs]
        simp [workerRun, hs, hr, List.filterMap_cons, hp, ih2]
      | warn q e =>
        have hp : probeWarn fs p = some (q, e) := by simp [probeWarn, hs]
        simp [workerRun, hs, hr, List.filterMap_cons, hp, ih2]
      | skip =>
        have hp : probeWarn fs p = none := by simp [probeWarn, hs]
        simp [workerRun, hs, hr, List.filterMap_cons, hp, ih2]

/-! ## Schedules: which worker dequeues which path -/

/-- The subsequence of paths that worker w dequeues, for a schedule that
assigns a worker index to each enqueued path. -/
def assignedTo (w : Nat) : List String → List Nat → List String
  | p :: ps, s :: ss => if s = w then p :: assignedTo w ps ss else assignedTo w ps ss
  | _, _ => []

/-- The multiset of matches collected over the whole pool for one schedule. -/
def schedMatches (fs : FS) (n : Nat) (ps : List String) (sched : List Nat) :
    Multiset matchResult :=
  ∑ w ∈ Finset.range n, ((workerRun fs (assignedTo w ps sched)).1 : Multiset matchResult)

/-- The multiset of paths dequeued over the whole pool for one schedule. -/
def schedProbes (n : Nat) (ps : List String) (sched : List Nat) :
    Multiset String :=
  ∑ w ∈ Finset.range n, ((assignedTo w ps sched : List String) : Multiset String)

theorem schedProbes_eq (n : Nat) :
    ∀ (ps : List String) (sched : List Nat), sched.length = ps.length →
      (∀ s ∈ sched, s < n) → schedProbes n ps sched = (ps : Multiset String)
  | [], sched, hlen, _ => by
    have hnil : sched = [] := List.eq_nil_of_length_eq_zero (by simpa using hlen)
    subst hnil
    simp [schedProbes, assignedTo]
  | p :: ps, [], hlen, _ => by simp at hlen
  | p :: ps, s :: ss, hlen, hlt => by
    have hs : s < n := hlt s (by simp)
    have ih := schedProbes_eq n ps ss (by simpa using hlen)
      (fun x hx => hlt x (by simp [hx]))
    unfold schedProbes at ih ⊢
    calc ∑ w ∈ Finset.range n,
          ((assignedTo w (p :: ps) (s :: ss) : List String) : Multiset String)
        = ∑ w ∈ Finset.range n,
            ((if s = w then ({p} : Multiset String) else 0)
              + ((assignedTo w ps ss : List String) : Multiset String)) := by
          refine Finset.sum_congr rfl (fun w _ => ?_)
          show ((if s = w then p :: assignedTo w ps ss else assignedTo w ps ss :
              List String) : Multiset String) = _
          by_cases h : s = w <;> simp [h]
      _ = (∑ w ∈ Finset.range n, (if s = w then ({p} : Multiset String) else 0))
            + ∑ w ∈ Finset.range n,
                ((assignedTo w ps ss : List String) : Multiset String) := by
          rw [Finset.sum_add_distrib]
      _ = ({p} : Multiset String) + (ps : Multiset String) := by
          rw [ih, Finset.sum_ite_eq]
          simp [Finset.mem_range.mpr hs]
      _ = ((p :: ps : List String) : Multiset String) := by simp

theorem schedMatches_eq (fs : FS) (n : Nat) :
    ∀ (ps : List String) (sched : List Nat), sched.length = ps.length →
      (∀ s ∈ sched, s < n) →
      schedMatches fs n ps sched
        = ((ps.filterMap (probeMatch fs) : List matchResult) : Multiset matchResult)
  | [], sched, hlen, _ => by
    have hnil : sched = [] := List.eq_nil_of_length_eq_zero (by simpa using hlen)
    subst hnil
    simp [schedMatches, assignedTo, workerRun]
  | p :: ps, [], hlen, _ => by simp at hlen
  | p :: ps, s :: ss, hlen, hlt => by
    have hs : s < n := hlt s (by simp)
    have ih := schedMatches_eq fs n ps ss (by simpa using hlen)
      (fun x hx => hlt x (by simp [hx]))
    unfold schedMatches at ih ⊢
    cases hp : probeMatch fs p with
    | none =>
      have hcongr : ∀ w ∈ Finset.range n,
          ((workerRun fs (assignedTo w (p :: ps) (s :: ss))).1 : Multiset matchResult)
            = ((workerRun fs (assignedTo w ps ss)).1 : Multiset matchResult) := by
        intro w _
        show ((workerRun fs (if s = w then p :: assignedTo w ps ss
            else assignedTo w ps ss)).1 : Multiset matchResult) = _
        by_cases h : s = w <;>
          simp [h, workerRun_fst, List.filterMap_cons, hp]
      rw [Finset.sum_congr rfl hcongr, ih]
      simp [List.filterMap_cons, hp]
    | some m =>
      calc ∑ w ∈ Finset.range n,
            ((workerRun fs (assignedTo w (p :: ps) (s :: ss))).1 : Multiset matchResult)
          = ∑ w ∈ Finset.range n,
              ((if s = w then ({m} : Multiset matchResult) else 0)
                + ((workerRun fs (assignedTo w ps ss)).1 : Multiset matchResult)) := by
            refine Finset.sum_congr rfl (fun w _ => ?_)
            show ((workerRun fs (if s = w then p :: assignedTo w ps ss
                else assignedTo w ps ss)).1 : Multiset matchResult) = _
            by_cases h : s = w <;>
              simp [h, workerRun_fst, List.filterMap_cons, hp]
        _ = (∑ w ∈ Finset.range n, (if s = w then ({m} : Multiset matchResult) else 0))
              + ∑ w ∈ Finset.range n,
                  ((workerRun fs (assignedTo w ps ss)).1 : Multiset matchResult) := by
            rw [Finset.sum_add_distrib]
        _ = ({m} : Multiset matchResult)
              + ((ps.filterMap (probeMatch fs) : List matchResult)
                  : Multiset matchResult) := by
            rw [ih, Finset.sum_ite_eq]
            simp [Finset.mem_range.mpr hs]
        _ = (((p :: ps).filterMap (probeMatch fs) : List matchResult)
              : Multiset matchResult) := by
            simp [List.filterMap_cons, hp]

/-! ## Clean walks emit exactly the reachable regular files -/

mutual

theorem walkNode_clean_eq_reach : ∀ (path : String) (nd : FSNode),
    (walkNode path nd).2 = none → (walkNode path nd).1 = reachNode path nd
  | _, .file _, _ => rfl
  | _, .special _, _ => rfl
  | path, .dir nm rerr cs, h => by
    cases rerr with
    | some e =>
      cases e with
      | permission => simp [walkNode, reachNode]
      | other k => simp [walkNode] at h
    | none =>
      have h2 : (walkList path cs).2 = none := by simpa [walkNode] using h
      simpa [walkNode, reachNode] using walkList_clean_eq_reach path cs h2

theorem walkList_clean_eq_reach : ∀ (path : String) (cs : List FSNode),
    (walkList path cs).2 = none → (walkList path cs).1 = reachList path cs
  | _, [], _ => rfl
  | path, c :: rest, h => by
    cases hw : walkNode (joinPath path c.name) c with
    | mk ps e =>
      cases hrest : walkList path rest with
      | mk qs e2 =>
        cases e with
        | some e1 =>
          exfalso
          have hx : (walkList path (c :: rest)).2 = some e1 := by
            simp [walkList, hw]
          rw [hx] at h
          exact Option.noConfusion h
        | none =>
          have hx : walkList path (c :: rest) = (ps ++ qs, e2) := by
            simp [walkList, hw, hrest]
          rw [hx] at h
          have he2 : e2 = none := h
          subst he2
          have r1 : (walkNode (joinPath path c.name) c).1
              = reachNode (joinPath path c.name) c :=
            walkNode_clean_eq_reach _ _ (by rw [hw])
          have r2 : (walkList path rest).1 = reachList path rest :=
            walkList_clean_eq_reach path rest (by rw [hrest])
          rw [hw] at r1
          rw [hrest] at r2
          rw [hx]
          simp only [reachList]
          rw [← r1, ← r2]

end

theorem walkDirRoot_clean_eq_reach (r : String) (e : RootEntry)
    (h : (walkDirRoot r e).2 = none) :
    (walkDirRoot r e).1 = reachRoot r e := by
  cases e with
  | missing er => cases er <;> simp [walkDirRoot, reachRoot]
  | ok nd => exact walkNode_clean_eq_reach r nd h

theorem enqueued_eq_reachable (fs : FS) :
    ∀ roots : List String, scanWalkErrs fs roots = [] →
      enqueuedPaths fs roots = reachableFiles fs roots
  | [], _ => rfl
  | r :: rs, h => by
    have hsplit : ((walkDirRoot r (fs.rootAt r)).2).toList = []
        ∧ scanWalkErrs fs rs = [] := by
      have := List.append_eq_nil.mp h
      exact this
    have hnone : (walkDirRoot r (fs.rootAt r)).2 = none := by
      cases hc : (walkDirRoot r (fs.rootAt r)).2 with
      | none => rfl
      | some e =>
        have := hsplit.1
        rw [hc] at this
        simp [Option.toList] at this
    have ih := enqueued_eq_reachable fs rs hsplit.2
    show (walkDirRoot r (fs.rootAt r)).1 ++ enqueuedPaths fs rs
        = reachRoot r (fs.rootAt r) ++ reachableFiles fs rs
    rw [walkDirRoot_clean_eq_reach r _ hnone, ih]

/-! ## Probed matches carry the probed path -/

theorem checkSQLiteMagic_hit (fileAt : String → FileModel) (p : String) :
    (checkSQLiteMagic fileAt p).2.1 = true →
    checkSQLiteMagic fileAt p
      = (⟨p, ((fileAt p).contents.length : Int)⟩, true, none) := by
  intro h
  unfold checkSQLiteMagic at h ⊢
  cases h1 : (fileAt p).openErr with
  | some e => rw [h1] at h; simp at h
  | none =>
    rw [h1] at h
    cases h2 : (fileAt p).readErr with
    | some e => rw [h2] at h; simp at h
    | none =>
      rw [h2] at h
      by_cases h3 : (fileAt p).contents.length < sqliteMagic.length
      · rw [if_pos h3] at h; simp at h
      · rw [if_neg h3] at h ⊢
        by_cases h4 : (fileAt p).contents.take sqliteMagic.length = sqliteMagic
        · rw [if_pos h4] at h ⊢
          cases h5 : (fileAt p).statErr with
          | some e => rw [h5] at h; simp at h
          | none => rfl
        · rw [if_neg h4] at h; simp at h

theorem probeMatch_path (fs : FS) (p : String) (m : matchResult) :
    probeMatch fs p = some m → m.Path = p := by
  intro h
  unfold probeMatch workerStep at h
  cases hc : checkSQLiteMagic fs.fileAt p with
  | mk res pr =>
    cases pr with
    | mk ok err =>
      rw [hc] at h
      cases err with
      | some e =>
        by_cases he : e = IOErr.permission <;> simp [he] at h
      | none =>
        cases ok with
        | false => simp at h
        | true =>
          simp only [if_pos] at h
          have hm : m = res := by
            have : WorkerOut.hit res = WorkerOut.hit m := by
              simpa using h
            cases this
            rfl
          have hhit := checkSQLiteMagic_hit fs.fileAt p (by rw [hc])
          rw [hc] at hhit
          have : res = ⟨p, ((fs.fileAt p).contents.length : Int)⟩ := by
            have := congrArg Prod.fst hhit
            simpa using this
          rw [hm, this]

theorem filterMap_countP_le (fs : FS) (p : String) :
    ∀ ps : List String,
      ((ps.filterMap (probeMatch fs)).countP (fun m => m.Path == p)) ≤ ps.count p
  | [] => by simp
  | q :: ps => by
    have ih := filterMap_countP_le fs p ps
    cases hq : probeMatch fs q with
    | none =>
      rw [List.filterMap_cons_none hq, List.count_cons]
      omega
    | some m =>
      have hpath : m.Path = q := probeMatch_path fs q m hq
      rw [List.filterMap_cons_some hq, List.countP_cons, List.count_cons]
      by_cases hqp : q = p
      · subst hqp
        simp [hpath]
        omega
      · have : (m.Path == p) = false := by
          simp [hpath, hqp]
        simp [this, hqp]
        omega

/-! ## The pipeline aggregate (findSQLiteFiles) -/

/-- func findSQLiteFiles(roots, workers): collects the matches channel
into a slice (arrival order is scheduler-dependent, hence a multiset) and
drains the errs channel discarding everything on it; returns the collected
matches together with the combined walk error. -/
def findSQLiteFilesModel (fs : FS) (roots : List String) (n : Nat)
    (sched : List Nat) : Multiset matchResult × List IOErr :=
  (schedMatches fs n (enqueuedPaths fs roots) sched, scanWalkErrs fs roots)

theorem enqueuedPaths_congr (fs fs' : FS) (h : fs.rootAt = fs'.rootAt) :
    ∀ roots : List String, enqueuedPaths fs roots = enqueuedPaths fs' roots
  | [] => rfl
  | r :: rs => by
    simp only [enqueuedPaths]
    rw [h, enqueuedPaths_congr fs fs' h rs]

theorem scanWalkErrs_congr (fs fs' : FS) (h : fs.rootAt = fs'.rootAt) :
    ∀ roots : List String, scanWalkErrs fs roots = scanWalkErrs fs' roots
  | [] => rfl
  | r :: rs => by
    simp only [scanWalkErrs]
    rw [h, scanWalkErrs_congr fs fs' h rs]

/-- C2: in a clean scan (no aborting walk error) the enqueued paths are
exactly the reachable regular files, occurrence for occurrence; under any
valid schedule the multiset of paths dequeued across the pool equals the
enqueued multiset (each enqueued path is probed exactly once); and each
probed path contributes at most one MatchRecord per probe of it. -/
theorem scanPaths_each_file_once (fs : FS) (roots : List String) (n : Nat)
    (sched : List Nat)
    (hlen : sched.length = (enqueuedPaths fs roots).length)
    (hlt : ∀ s ∈ sched, s < n)
    (hclean : scanWalkErrs fs roots = []) :
    enqueuedPaths fs roots = reachableFiles fs roots ∧
    schedProbes n (enqueuedPaths fs roots) sched
      = ((enqueuedPaths fs roots : List String) : Multiset String) ∧
    ∀ p : String,
      (((enqueuedPaths fs roots).filterMap (probeMatch fs)).countP
          (fun m => m.Path == p))
        ≤ (enqueuedPaths fs roots).count p :=
  ⟨enqueued_eq_reachable fs roots hclean,
   schedProbes_eq n (enqueuedPaths fs roots) sched hlen hlt,
   fun p => filterMap_countP_le fs p (enqueuedPaths fs roots)⟩

/-- Witness file system for C2: one root holding a matching file, a
permission-denied subdirectory hiding a file, and a non-matching file. -/
def fsC2 : FS :=
  ⟨fun r =>
    if r = "root" then
      RootEntry.ok (FSNode.dir "root" none
        [FSNode.file "a.db",
         FSNode.dir "sub" (some IOErr.permission) [FSNode.file "hidden.db"],
         FSNode.file "b.txt"])
    else RootEntry.missing (IOErr.other 2),
   fun p => if p = "root/a.db" then ⟨none, sqliteMagic, none, none⟩
            else ⟨none, [], none, none⟩⟩

/-- Witness for C2 at fsC2 with two workers and schedule [0, 1]. -/
theorem scanPaths_each_file_once_witness :
    enqueuedPaths fsC2 ["root"] = reachableFiles fsC2 ["root"] ∧
    schedProbes 2 (enqueuedPaths fsC2 ["root"]) [0, 1]
      = ((enqueuedPaths fsC2 ["root"] : List String) : Multiset String) ∧
    (((enqueuedPaths fsC2 ["root"]).filterMap (probeMatch fsC2)).countP
        (fun m => m.Path == "root/a.db"))
      ≤ (enqueuedPaths fsC2 ["root"]).count "root/a.db" := by
  have h := scanPaths_each_file_once fsC2 ["root"] 2 [0, 1]
    (by decide) (by decide) (by decide)
  exact ⟨h.1, h.2.1, h.2.2 "root/a.db"⟩

/-- C3: a permission-denied directory is silently skipped with no error
and traversal continues with its siblings; any other directory error
aborts that root's walk at that point (siblings after it are not visited)
and is the error the walk returns; each root's walk error goes into the
combined error list and each root's traversal is independent of the other
roots'. -/
theorem walk_error_policy :
    (∀ (path nm : String) (cs : List FSNode),
      walkNode path (FSNode.dir nm (some IOErr.permission) cs) = ([], none)) ∧
    (∀ (path : String) (c : FSNode) (rest : List FSNode),
      (walkNode (joinPath path c.name) c).2 = none →
      walkList path (c :: rest)
        = ((walkNode (joinPath path c.name) c).1 ++ (walkList path rest).1,
            (walkList path rest).2)) ∧
    (∀ (path nm : String) (cs : List FSNode) (k : Nat),
      walkNode path (FSNode.dir nm (some (IOErr.other k)) cs)
        = ([], some (IOErr.other k))) ∧
    (∀ (path : String) (c : FSNode) (rest : List FSNode) (e : IOErr),
      (walkNode (joinPath path c.name) c).2 = some e →
      walkList path (c :: rest)
        = ((walkNode (joinPath path c.name) c).1, some e)) ∧
    (∀ (fs : FS) (r : String) (rs : List String),
      scanWalkErrs fs (r :: rs)
          = ((walkDirRoot r (fs.rootAt r)).2).toList ++ scanWalkErrs fs rs ∧
        enqueuedPaths fs (r :: rs)
          = (walkDirRoot r (fs.rootAt r)).1 ++ enqueuedPaths fs rs) := by
  refine ⟨?_, ?_, ?_, ?_, ?_⟩
  · intro path nm cs
    simp [walkNode]
  · intro path c rest h
    cases hw : walkNode (joinPath path c.name) c with
    | mk ps e =>
      rw [hw] at h
      have he : e = none := h
      subst he
      cases hrest : walkList path rest with
      | mk qs e2 => simp [walkList, hw, hrest]
  · intro path nm cs k
    simp [walkNode]
  · intro path c rest e h
    cases hw : walkNode (joinPath path c.name) c with
    | mk ps e' =>
      rw [hw] at h
      have he : e' = some e := h
      subst he
      simp [walkList, hw]
  · intro fs r rs
    exact ⟨rfl, rfl⟩

/-- Witness for C3: a clean child's paths accumulate before its siblings',
and a non-permission directory error stops the sibling loop. -/
theorem walk_error_policy_witness :
    walkList "d" [FSNode.file "x", FSNode.file "y"]
      = ((walkNode (joinPath "d" (FSNode.file "x").name) (FSNode.file "x")).1
          ++ (walkList "d" [FSNode.file "y"]).1,
         (walkList "d" [FSNode.file "y"]).2) ∧
    walkList "d" [FSNode.dir "s" (some (IOErr.other 3)) [FSNode.file "z"],
        FSNode.file "y"]
      = ((walkNode (joinPath "d"
            (FSNode.dir "s" (some (IOErr.other 3)) [FSNode.file "z"]).name)
            (FSNode.dir "s" (some (IOErr.other 3)) [FSNode.file "z"])).1,
          some (IOErr.other 3)) := by
  have h := walk_error_policy
  exact ⟨h.2.1 "d" (FSNode.file "x") [FSNode.file "y"] (by decide),
         h.2.2.2.1 "d" (FSNode.dir "s" (some (IOErr.other 3)) [FSNode.file "z"])
           [FSNode.file "y"] (IOErr.other 3) (by decide)⟩

/-- C4: per dequeued path, a permission-denied probe error is dropped
silently (nothing reaches either channel), any other probe error is
enqueued on the error channel wrapped with the offending path, a match
enqueues exactly one MatchRecord, a no-match produces nothing — and in
every case the worker goes on with the remaining paths. -/
theorem worker_probe_policy (fs : FS) (p : String) (ps : List String) :
    ((checkSQLiteMagic fs.fileAt p).2.2 = some IOErr.permission →
      workerRun fs (p :: ps) = workerRun fs ps) ∧
    (∀ k : Nat, (checkSQLiteMagic fs.fileAt p).2.2 = some (IOErr.other k) →
      workerRun fs (p :: ps)
        = ((workerRun fs ps).1, (p, IOErr.other k) :: (workerRun fs ps).2)) ∧
    ((checkSQLiteMagic fs.fileAt p).2.2 = none →
      (checkSQLiteMagic fs.fileAt p).2.1 = true →
      workerRun fs (p :: ps)
        = ((checkSQLiteMagic fs.fileAt p).1 :: (workerRun fs ps).1,
            (workerRun fs ps).2)) ∧
    ((checkSQLiteMagic fs.fileAt p).2.2 = none →
      (checkSQLiteMagic fs.fileAt p).2.1 = false →
      workerRun fs (p :: ps) = workerRun fs ps) := by
  cases hc : checkSQLiteMagic fs.fileAt p with
  | mk res pr =>
    cases pr with
    | mk ok err =>
      cases hr : workerRun fs ps with
      | mk ms ws =>
        refine ⟨?_, ?_, ?_, ?_⟩
        · intro h
          have he : err = some IOErr.permission := h
          subst he
          simp [workerRun, workerStep, hc, hr]
        · intro k h
          have he : err = some (IOErr.other k) := h
          subst he
          simp [workerRun, workerStep, hc, hr]
        · intro h1 h2
          have he : err = none := h1
          subst he
          have ho : ok = true := h2
          subst ho
          simp [workerRun, workerStep, hc, hr]
        · intro h1 h2
          have he : err = none := h1
          subst he
          have ho : ok = false := h2
          subst ho
          simp [workerRun, workerStep, hc, hr]

/-- Witness file system for C4: one permission-denied file, one file with
a non-permission open error, one matching file. -/
def fsC4 : FS :=
  ⟨fun _ => RootEntry.missing (IOErr.other 0),
   fun p =>
    if p = "perm.db" then ⟨some IOErr.permission, [], none, none⟩
    else if p = "bad.db" then ⟨some (IOErr.other 5), [], none, none⟩
    else if p = "good.db" then ⟨none, sqliteMagic ++ [9], none, none⟩
    else ⟨none, [], none, none⟩⟩

/-- Witness for C4 at fsC4: the four dispositions at concrete paths. -/
theorem worker_probe_policy_witness :
    workerRun fsC4 ["perm.db"] = workerRun fsC4 [] ∧
    workerRun fsC4 ["bad.db"]
      = ((workerRun fsC4 []).1, ("bad.db", IOErr.other 5) :: (workerRun fsC4 []).2) ∧
    workerRun fsC4 ["good.db"]
      = ((checkSQLiteMagic fsC4.fileAt "good.db").1 :: (workerRun fsC4 []).1,
          (workerRun fsC4 []).2) ∧
    workerRun fsC4 ["none.db"] = workerRun fsC4 [] := by
  refine ⟨(worker_probe_policy fsC4 "perm.db" []).1 (by decide),
          (worker_probe_policy fsC4 "bad.db" []).2.1 5 (by decide),
          (worker_probe_policy fsC4 "good.db" []).2.2.1 (by decide) (by decide),
          (worker_probe_policy fsC4 "none.db" []).2.2.2 (by decide) (by decide)⟩

/-- C6: the multiset of MatchRecords collected by findSQLiteFiles under
any pool size N with any valid schedule equals the one collected by a
single worker processing every path; only arrival order can differ. -/
theorem findSQLiteFiles_pool_independent (fs : FS) (roots : List String)
    (n : Nat) (sched : List Nat)
    (hlen : sched.length = (enqueuedPaths fs roots).length)
    (hlt : ∀ s ∈ sched, s < n) :
    findSQLiteFilesModel fs roots n sched
      = findSQLiteFilesModel fs roots 1
          (List.replicate (enqueuedPaths fs roots).length 0) := by
  unfold findSQLiteFilesModel
  have h1 := schedMatches_eq fs n (enqueuedPaths fs roots) sched hlen hlt
  have h2 := schedMatches_eq fs 1 (enqueuedPaths fs roots)
    (List.replicate (enqueuedPaths fs roots).length 0)
    (by simp)
    (fun s hs => by
      have := List.eq_of_mem_replicate hs
      omega)
  rw [h1, h2]

/-- Witness for C6 at fsC2: three workers with an interleaving schedule
collect the same multiset as a single worker. -/
theorem findSQLiteFiles_pool_independent_witness :
    findSQLiteFilesModel fsC2 ["root"] 3 [2, 0]
      = findSQLiteFilesModel fsC2 ["root"] 1
          (List.replicate (enqueuedPaths fsC2 ["root"]).length 0) :=
  findSQLiteFiles_pool_independent fsC2 ["root"] 3 [2, 0] (by decide) (by decide)

/-- C10: findSQLiteFiles drains and discards the error channel: its result
is a function of the walk structure and of the per-path match outcomes
alone, so it is unchanged under any alteration of the per-file probe
warnings (which the streaming CLI path would print). -/
theorem findSQLiteFiles_discards_warnings (fs fs' : FS) (roots : List String)
    (n : Nat) (sched : List Nat)
    (hroot : fs.rootAt = fs'.rootAt)
    (hmatch : ∀ p, probeMatch fs p = probeMatch fs' p) :
    findSQLiteFilesModel fs roots n sched
      = findSQLiteFilesModel fs' roots n sched := by
  have hfun : probeMatch fs = probeMatch fs' := funext hmatch
  unfold findSQLiteFilesModel
  rw [scanWalkErrs_congr fs fs' hroot roots, enqueuedPaths_congr fs fs' hroot roots]
  refine congrArg (fun m => (m, scanWalkErrs fs' roots)) ?_
  unfold schedMatches
  refine Finset.sum_congr rfl (fun w _ => ?_)
  rw [workerRun_fst, workerRun_fst, hfun]

/-- Shared root view for the two C10 witness file systems. -/
def rootC10 : String → RootEntry := fun _ => RootEntry.ok (FSNode.file "f")

/-- C10 witness file system A: every probe fails with a non-permission
open error (a warning is produced). -/
def fsC10a : FS := ⟨rootC10, fun _ => ⟨some (IOErr.other 7), [], none, none⟩⟩

/-- C10 witness file system B: every probe reads an empty file
(no warning). -/
def fsC10b : FS := ⟨rootC10, fun _ => ⟨none, [], none, none⟩⟩

/-- Witness for C10: the two file systems produce different warnings but
identical findSQLiteFiles results. -/
theorem findSQLiteFiles_discards_warnings_witness :
    findSQLiteFilesModel fsC10a ["root"] 1 [0]
      = findSQLiteFilesModel fsC10b ["root"] 1 [0] ∧
    probeWarn fsC10a "root" = some ("root", IOErr.other 7) ∧
    probeWarn fsC10b "root" = none := by
  refine ⟨findSQLiteFiles_discards_warnings fsC10a fsC10b ["root"] 1 [0] rfl
    (fun p => rfl), by decide, by decide⟩

/-! ## resolveRoots -/

/-- The OS oracles resolveRoots consults: filepath.EvalSymlinks (none
models an error) and whether os.Stat succeeds on a path. -/
structure RootFS where
  evalSymlinks : String → Option String
  statOk : String → Bool

/-- r := root; if EvalSymlinks succeeds, r is the resolved path. -/
def evalOr (rfs : RootFS) (root : String) : String :=
  match rfs.evalSymlinks root with
  | some rr => rr
  | none => root

/-- The loop of resolveRoots with its seen set: if os.Stat succeeds on r,
dedup and emit by r; otherwise fall back to the original raw path. -/
def resolveLoop (rfs : RootFS) : List String → List String → List String
  | [], _ => []
  | root :: rest, seen =>
    if rfs.statOk (evalOr rfs root) then
      if evalOr rfs root ∈ seen then resolveLoop rfs rest seen
      else evalOr rfs root :: resolveLoop rfs rest (evalOr rfs root :: seen)
    else
      if root ∈ seen then resolveLoop rfs rest seen
      else root :: resolveLoop rfs rest (root :: seen)

/-- func resolveRoots(roots []string) []string. -/
def resolveRoots (rfs : RootFS) (roots : List String) : List String :=
  resolveLoop rfs roots []

/-- The dedup key and traversal target the loop uses for one input. -/
def rootKey (rfs : RootFS) (root : String) : String :=
  if rfs.statOk (evalOr rfs root) then evalOr rfs root else root

/-- First-occurrence deduplication preserving input order. -/
def firstDedup (seen : List String) : List String → List String
  | [] => []
  | a :: rest =>
    if a ∈ seen then firstDedup seen rest
    else a :: firstDedup (a :: seen) rest

theorem resolveLoop_eq (rfs : RootFS) :
    ∀ (roots seen : List String),
      resolveLoop rfs roots seen = firstDedup seen (roots.map (rootKey rfs))
  | [], _ => rfl
  | root :: rest, seen => by
    by_cases hst : rfs.statOk (evalOr rfs root) = true
    · have hk : rootKey rfs root = evalOr rfs root := by simp [rootKey, hst]
      simp only [resolveLoop, List.map_cons, firstDedup, hk, hst, if_true]
      by_cases hmem : evalOr rfs root ∈ seen
      · simp [hmem, resolveLoop_eq rfs rest seen]
      · simp [hmem, resolveLoop_eq rfs rest (evalOr rfs root :: seen)]
    · have hk : rootKey rfs root = root := by simp [rootKey, hst]
      simp only [resolveLoop, List.map_cons, firstDedup, hk]
      rw [if_neg (by simpa using hst)]
      by_cases hmem : root ∈ seen
      · simp [hmem, resolveLoop_eq rfs rest seen]
      · simp [hmem, resolveLoop_eq rfs rest (root :: seen)]

theorem firstDedup_nodup_and :
    ∀ (l seen : List String),
      (firstDedup seen l).Nodup ∧ ∀ x ∈ firstDedup seen l, x ∉ seen
  | [], _ => by simp [firstDedup]
  | a :: rest, seen => by
    by_cases hmem : a ∈ seen
    · simpa [firstDedup, hmem] using firstDedup_nodup_and rest seen
    · have ih := firstDedup_nodup_and rest (a :: seen)
      simp only [firstDedup, hmem, if_neg, if_false]
      constructor
      · refine List.nodup_cons.mpr ⟨?_, ih.1⟩
        intro hcon
        exact (ih.2 a hcon) (List.mem_cons_self a seen)
      · intro x hx
        rcases List.mem_cons.mp hx with hx1 | hx2
        · rw [hx1]; exact hmem
        · intro hxs
          exact (ih.2 x hx2) (List.mem_cons_of_mem a hxs)

theorem firstDedup_sublist :
    ∀ (l seen : List String), (firstDedup seen l).Sublist l
  | [], _ => by simp [firstDedup]
  | a :: rest, seen => by
    by_cases hmem : a ∈ seen
    · simp only [firstDedup, hmem, if_true]
      exact (firstDedup_sublist rest seen).trans (List.sublist_cons_self a rest)
    · simp only [firstDedup, hmem, if_neg, if_false]
      exact (firstDedup_sublist rest (a :: seen)).cons₂ a

/-- C5: resolveRoots represents each input by its symlink-resolved path
when resolution succeeds and the resolved path exists (os.Stat succeeds),
and by the raw input in every other case; output preserves first-
occurrence order, silently drops later duplicates by the resolved-or-raw
key (so a root given raw and again via a symlink to it appears once), and
a nonexistent root produces no error, only a raw passthrough entry. -/
theorem resolveRoots_spec (rfs : RootFS) (roots : List String) :
    resolveRoots rfs roots = firstDedup [] (roots.map (rootKey rfs)) ∧
    (∀ root rr, rfs.evalSymlinks root = some rr → rfs.statOk rr = true →
      rootKey rfs root = rr) ∧
    (∀ root rr, rfs.evalSymlinks root = some rr → rfs.statOk rr = false →
      rootKey rfs root = root) ∧
    (∀ root, rfs.evalSymlinks root = none → rootKey rfs root = root) ∧
    (resolveRoots rfs roots).Nodup ∧
    (resolveRoots rfs roots).Sublist (roots.map (rootKey rfs)) ∧
    (∀ a b, rootKey rfs a = rootKey rfs b →
      resolveRoots rfs [a, b] = [rootKey rfs a]) := by
  have heq := resolveLoop_eq rfs roots []
  refine ⟨heq, ?_, ?_, ?_, ?_, ?_, ?_⟩
  · intro root rr h1 h2
    simp [rootKey, evalOr, h1, h2]
  · intro root rr h1 h2
    simp [rootKey, evalOr, h1, h2]
  · intro root h1
    simp [rootKey, evalOr, h1]
  · rw [show resolveRoots rfs roots = resolveLoop rfs roots [] from rfl, heq]
    exact (firstDedup_nodup_and (roots.map (rootKey rfs)) []).1
  · rw [show resolveRoots rfs roots = resolveLoop rfs roots [] from rfl, heq]
    exact firstDedup_sublist (roots.map (rootKey rfs)) []
  · intro a b hab
    show resolveLoop rfs [a, b] [] = [rootKey rfs a]
    rw [resolveLoop_eq rfs [a, b] []]
    simp [firstDedup, ← hab]

/-- Witness root file system for C5: "link" resolves to "real", only
"real" exists on disk. -/
def rfsC5 : RootFS :=
  ⟨fun s => if s = "link" then some "real" else none, fun s => s == "real"⟩

/-- Witness for C5: the symlink collapses onto the raw root and the
nonexistent root falls back to its raw name. -/
theorem resolveRoots_spec_witness :
    rootKey rfsC5 "link" = "real" ∧
    resolveRoots rfsC5 ["real", "link"] = ["real"] ∧
    rootKey rfsC5 "missing" = "missing" := by
  have h := resolveRoots_spec rfsC5 ["real", "link"]
  refine ⟨h.2.1 "link" "real" (by decide) (by decide), ?_,
    h.2.2.2.1 "missing" (by decide)⟩
  have h2 := h.2.2.2.2.2.2 "real" "link" (by decide)
  rw [h2]
  decide

/-! ## Rendering -/

/-- What filepath.Abs consults at render time: the working directory
(os.Getwd; none models a Getwd failure) and filepath.Clean, a pure
lexical function left abstract here. -/
structure RenderEnv where
  cwd : Option String
  clean : String → String

/-- filepath.IsAbs on unix: the path starts with a slash. -/
def isAbsPath (p : String) : Bool :=
  match p.data with
  | '/' :: _ => true
  | _ => false

/-- filepath.Abs: Clean(path) for an absolute path; otherwise
Join(wd, path) = Clean(wd + "/" + path) after a successful Getwd, or an
error (none) when Getwd fails. -/
def absPath (env : RenderEnv) (p : String) : Option String :=
  if isAbsPath p then some (env.clean p)
  else
    match env.cwd with
    | some wd => some (env.clean (wd ++ "/" ++ p))
    | none => none

/-- func formatPath: the absolute form when filepath.Abs succeeds, the
raw path unchanged otherwise. -/
def formatPath (env : RenderEnv) (p : String) : String :=
  match absPath env p with
  | some ap => ap
  | none => p

/-- Lowercase hexadecimal digit, as encoding/json uses. -/
def hexDigit (d : Nat) : Char :=
  if d < 10 then Char.ofNat (48 + d) else Char.ofNat (87 + d)

/-- A \u escape of a code point below 0x10000, as encoding/json emits it. -/
def uEscape (n : Nat) : List Char :=
  ['\\', 'u', hexDigit (n / 4096 % 16), hexDigit (n / 256 % 16),
   hexDigit (n / 16 % 16), hexDigit (n % 16)]

/-- encoding/json's escaping of one character of a string value with the
default HTML escaping: ", \ get backslash escapes; \n, \r, \t get short
escapes; <, >, &, other control characters and U+2028/U+2029 get \u
escapes; everything else is copied verbatim. -/
def escapeChar (c : Char) : List Char :=
  if c = '"' then ['\\', '"']
  else if c = '\\' then ['\\', '\\']
  else if c = '\n' then ['\\', 'n']
  else if c = '\r' then ['\\', 'r']
  else if c = '\t' then ['\\', 't']
  else if c = '<' ∨ c = '>' ∨ c = '&' then uEscape c.toNat
  else if c.toNat < 32 then uEscape c.toNat
  else if c.toNat = 8232 ∨ c.toNat = 8233 then uEscape c.toNat
  else [c]

/-- The escaped body of a JSON string literal. -/
def escapeString : List Char → List Char
  | [] => []
  | c :: rest => escapeChar c ++ escapeString rest

/-- func marshalString: json.Marshal of a string value never fails and
yields the quoted escaped literal. -/
def marshalString (s : String) : String :=
  String.mk ('"' :: escapeString s.data ++ ['"'])

/-- Decimal digits of a natural number, most significant first. -/
def natDecimalAux : Nat → List Char → List Char
  | n, acc =>
    if n < 10 then Char.ofNat (48 + n) :: acc
    else natDecimalAux (n / 10) (Char.ofNat (48 + n % 10) :: acc)
termination_by n _ => n
decreasing_by exact Nat.div_lt_self (by omega) (by omega)

/-- Decimal rendering of a natural number. -/
def natDecimal (n : Nat) : List Char := natDecimalAux n []

/-- fmt's %d rendering of an int64 value. -/
def intDecimal (n : Int) : String :=
  if n < 0 then String.mk ('-' :: natDecimal (-n).toNat)
  else String.mk (natDecimal n.toNat)

/-- func formatJSONLine: one compact JSON object per match. -/
def formatJSONLine (env : RenderEnv) (m : matchResult) (showSize : Bool) :
    String :=
  if showSize then
    "\x7b\"path\": " ++ marshalString (formatPath env m.Path)
      ++ ", \"size\": " ++ intDecimal m.Size ++ "\x7d"
  else "\x7b\"path\": " ++ marshalString (formatPath env m.Path) ++ "\x7d"

/-- func formatJSONEntry: one indented pretty-JSON object per match. -/
def formatJSONEntry (env : RenderEnv) (m : matchResult) (showSize : Bool) :
    String :=
  if showSize then
    "    \x7b\n      \"path\": " ++ marshalString (formatPath env m.Path)
      ++ ",\n      \"size\": " ++ intDecimal m.Size ++ "\n    \x7d"
  else
    "    \x7b\n      \"path\": " ++ marshalString (formatPath env m.Path)
      ++ "\n    \x7d"

/-- func formatPlainMatch: the absolute path, optionally with the size. -/
def formatPlainMatch (env : RenderEnv) (m : matchResult) (showSize : Bool) :
    String :=
  if !showSize then formatPath env m.Path
  else formatPath env m.Path ++ " (" ++ intDecimal m.Size ++ " bytes)"

/-- The look-ahead loop of streamMatches in pretty-JSON mode: every entry
but the last is printed with a trailing comma, the last with Println. -/
def prettyBody (env : RenderEnv) (showSize : Bool) :
    matchResult → List matchResult → String
  | curr, [] => formatJSONEntry env curr showSize ++ "\n"
  | curr, next :: rest =>
    formatJSONEntry env curr showSize ++ ",\n" ++ prettyBody env showSize next rest

/-- streamMatches in pretty-JSON mode, as the full stdout text. -/
def prettyOutput (env : RenderEnv) (ms : List matchResult) (showSize : Bool) :
    String :=
  "\x7b\n" ++ "  \"entries\": [\n"
    ++ (match ms with
        | [] => ""
        | first :: rest => prettyBody env showSize first rest)
    ++ "  ]\n" ++ "\x7d\n"

/-- streamMatches in JSON-lines mode, as the full stdout text. -/
def jsonlOutput (env : RenderEnv) (showSize : Bool) : List matchResult → String
  | [] => ""
  | m :: rest => formatJSONLine env m showSize ++ "\n" ++ jsonlOutput env showSize rest

/-- streamMatches in plain mode, as the full stdout text. -/
def plainOutput (env : RenderEnv) (showSize : Bool) : List matchResult → String
  | [] => ""
  | m :: rest => formatPlainMatch env m showSize ++ "\n" ++ plainOutput env showSize rest

/-- func streamMatches: jsonl takes precedence, then pretty JSON, then
plain text. -/
def streamMatches (env : RenderEnv) (ms : List matchResult)
    (jsonOutput jsonl showSize : Bool) : String :=
  if jsonl then jsonlOutput env showSize ms
  else if jsonOutput then prettyOutput env ms showSize
  else plainOutput env showSize ms

/-! ## A small JSON reader used to state rendering round-trips -/

/-- JSON values as far as the scanner's output shapes need: strings,
numeric tokens kept verbatim, arrays and objects. -/
inductive JValue where
  | str (s : String)
  | num (tok : String)
  | arr (vs : List JValue)
  | obj (fields : List (String × JValue))

/-- JSON insignificant whitespace. -/
def isWsChar (c : Char) : Bool := c = ' ' ∨ c = '\n' ∨ c = '\t' ∨ c = '\r'

/-- Drop leading insignificant whitespace. -/
def skipWs : List Char → List Char
  | [] => []
  | c :: rest => if isWsChar c then skipWs rest else c :: rest

/-- Value of one hexadecimal digit. -/
def hexVal (c : Char) : Option Nat :=
  if 48 ≤ c.toNat ∧ c.toNat ≤ 57 then some (c.toNat - 48)
  else if 97 ≤ c.toNat ∧ c.toNat ≤ 102 then some (c.toNat - 87)
  else if 65 ≤ c.toNat ∧ c.toNat ≤ 70 then some (c.toNat - 55)
  else none

/-- The character encoded by a short escape. -/
def unescapeChar (e : Char) : Option Char :=
  if e = '"' then some '"'
  else if e = '\\' then some '\\'
  else if e = '/' then some '/'
  else if e = 'n' then some '\n'
  else if e = 'r' then some '\r'
  else if e = 't' then some '\t'
  else if e = 'b' then some (Char.ofNat 8)
  else if e = 'f' then some (Char.ofNat 12)
  else none

/-- Read the body of a JSON string literal after its opening quote, up to
and including the closing quote; returns the decoded characters and the
unread input. -/
def parseStringBody : List Char → Option (List Char × List Char)
  | [] => none
  | c :: rest =>
    if c = '"' then some ([], rest)
    else if c = '\\' then
      match rest with
      | 'u' :: a :: b :: c2 :: d :: rest2 =>
        match hexVal a, hexVal b, hexVal c2, hexVal d with
        | some x, some y, some z, some w =>
          (parseStringBody rest2).map
            (fun p => (Char.ofNat (4096 * x + 256 * y + 16 * z + w) :: p.1, p.2))
        | _, _, _, _ => none
      | e :: rest2 =>
        match unescapeChar e with
        | some u => (parseStringBody rest2).map (fun p => (u :: p.1, p.2))
        | none => none
      | [] => none
    else (parseStringBody rest).map (fun p => (c :: p.1, p.2))

/-- Decimal digit test. -/
def isDigitChar (c : Char) : Bool := 48 ≤ c.toNat ∧ c.toNat ≤ 57

/-- Longest digit run at the front of the input. -/
def spanDigits : List Char → List Char × List Char
  | [] => ([], [])
  | c :: rest =>
    if isDigitChar c then
      match spanDigits rest with
      | (ds, r) => (c :: ds, r)
    else ([], c :: rest)

/-- Read a JSON integer token (optional minus sign, one or more digits),
kept verbatim. -/
def parseNumTok (cs : List Char) : Option (String × List Char) :=
  match cs with
  | [] => none
  | c :: rest =>
    if c = '-' then
      match spanDigits rest with
      | ([], _) => none
      | (ds, r) => some (String.mk ('-' :: ds), r)
    else
      match spanDigits (c :: rest) with
      | ([], _) => none
      | (ds, r) => some (String.mk ds, r)

mutual

/-- Fuel-indexed JSON value reader. -/
def parseValue : Nat → List Char → Option (JValue × List Char)
  | 0, _ => none
  | fuel + 1, cs =>
    match skipWs cs with
    | [] => none
    | c :: rest =>
      if c = '"' then
        (parseStringBody rest).map (fun p => (JValue.str (String.mk p.1), p.2))
      else if c = '\x7b' then
        match skipWs rest with
        | d :: rest2 =>
          if d = '\x7d' then some (JValue.obj [], rest2)
          else (parseMembers fuel (d :: rest2)).map (fun p => (JValue.obj p.1, p.2))
        | [] => none
      else if c = '[' then
        match skipWs rest with
        | d :: rest2 =>
          if d = ']' then some (JValue.arr [], rest2)
          else (parseElems fuel (d :: rest2)).map (fun p => (JValue.arr p.1, p.2))
        | [] => none
      else (parseNumTok (c :: rest)).map (fun p => (JValue.num p.1, p.2))

/-- Fuel-indexed reader of one or more object members, starting at the
first key's opening quote, consuming through the closing curly bracket. -/
def parseMembers : Nat → List Char → Option (List (String × JValue) × List Char)
  | 0, _ => none
  | fuel + 1, cs =>
    match cs with
    | [] => none
    | c :: rest =>
      if c = '"' then
        match parseStringBody rest with
        | some (k, cs2) =>
          match skipWs cs2 with
          | ':' :: cs3 =>
            match parseValue fuel cs3 with
            | some (v, cs4) =>
              match skipWs cs4 with
              | ',' :: cs5 =>
                (parseMembers fuel (skipWs cs5)).map
                  (fun p => ((String.mk k, v) :: p.1, p.2))
              | d :: cs5 =>
                if d = '\x7d' then some ([(String.mk k, v)], cs5) else none
              | [] => none
            | none => none
          | _ => none
        | none => none
      else none

/-- Fuel-indexed reader of one or more array elements, consuming through
the closing square bracket. -/
def parseElems : Nat → List Char → Option (List JValue × List Char)
  | 0, _ => none
  | fuel + 1, cs =>
    match parseValue fuel cs with
    | some (v, cs2) =>
      match skipWs cs2 with
      | ',' :: cs3 => (parseElems fuel cs3).map (fun p => (v :: p.1, p.2))
      | d :: cs3 => if d = ']' then some ([v], cs3) else none
      | [] => none
    | none => none

end

/-- Parse a whole string as one JSON value followed only by whitespace. -/
def parseJson (s : String) : Option JValue :=
  match parseValue (s.data.length + 16) s.data with
  | some (v, rest) => if skipWs rest = [] then some v else none
  | none => none

/-- The keys of a parsed object, empty for any other value. -/
def jsonKeys : Option JValue → List String
  | some (JValue.obj fields) => fields.map (fun f => f.1)
  | _ => []

/-! ## Round-trip facts: the parser inverts the renderer -/

theorem char_toNat_ofNat (k : Nat) (h : Nat.isValidChar k) :
    (Char.ofNat k).toNat = k := by
  unfold Char.ofNat
  rw [dif_pos h]
  rfl

theorem hexDigit_hexVal : ∀ d : Nat, d < 16 → hexVal (hexDigit d) = some d := by
  decide

theorem parse_uEscape (t : Nat) (ht : t < 65536) (rest : List Char) :
    parseStringBody (uEscape t ++ rest)
      = (parseStringBody rest).map (fun p => (Char.ofNat t :: p.1, p.2)) := by
  have h1 := hexDigit_hexVal (t / 4096 % 16) (Nat.mod_lt _ (by omega))
  have h2 := hexDigit_hexVal (t / 256 % 16) (Nat.mod_lt _ (by omega))
  have h3 := hexDigit_hexVal (t / 16 % 16) (Nat.mod_lt _ (by omega))
  have h4 := hexDigit_hexVal (t % 16) (Nat.mod_lt _ (by omega))
  have hcode : 4096 * (t / 4096 % 16) + 256 * (t / 256 % 16)
      + 16 * (t / 16 % 16) + t % 16 = t := by omega
  simp [uEscape, parseStringBody, h1, h2, h3, h4, hcode]

theorem parse_escapeString : ∀ (cs rest : List Char),
    parseStringBody (escapeString cs ++ '"' :: rest) = some (cs, rest)
  | [], rest => by
    show parseStringBody ('"' :: rest) = some ([], rest)
    rw [parseStringBody.eq_def]
    simp
  | c :: cs, rest => by
    have ih := parse_escapeString cs rest
    simp only [escapeString, List.append_assoc]
    by_cases h1 : c = '"'
    · subst h1
      simp [escapeChar, parseStringBody, unescapeChar, ih]
    · by_cases h2 : c = '\\'
      · subst h2
        simp [escapeChar, parseStringBody, unescapeChar, ih]
      · by_cases h3 : c = '\n'
        · subst h3
          simp [escapeChar, parseStringBody, unescapeChar, ih]
        · by_cases h4 : c = '\r'
          · subst h4
            simp [escapeChar, parseStringBody, unescapeChar, ih]
          · by_cases h5 : c = '\t'
            · subst h5
              simp [escapeChar, parseStringBody, unescapeChar, ih]
            · by_cases h6 : c = '<' ∨ c = '>' ∨ c = '&'
              · have hesc : escapeChar c = uEscape c.toNat := by
                  simp [escapeChar, h1, h2, h3, h4, h5, h6]
                have ht : c.toNat < 65536 := by
                  rcases h6 with h | h | h <;> subst h <;> decide
                rw [hesc, parse_uEscape c.toNat ht, ih]
                simp [Char.ofNat_toNat]
              · by_cases h7 : c.toNat < 32
                · have hesc : escapeChar c = uEscape c.toNat := by
                    simp [escapeChar, h1, h2, h3, h4, h5, h6, h7]
                  rw [hesc, parse_uEscape c.toNat (by omega), ih]
                  simp [Char.ofNat_toNat]
                · by_cases h8 : c.toNat = 8232 ∨ c.toNat = 8233
                  · have hesc : escapeChar c = uEscape c.toNat := by
                      simp [escapeChar, h1, h2, h3, h4, h5, h6, h7, h8]
                    have ht : c.toNat < 65536 := by
                      rcases h8 with h | h <;> omega
                    rw [hesc, parse_uEscape c.toNat ht, ih]
                    simp [Char.ofNat_toNat]
                  · have hesc : escapeChar c = [c] := by
                      simp [escapeChar, h1, h2, h3, h4, h5, h6, h7, h8]
                    rw [hesc]
                    show parseStringBody (c :: (escapeString cs ++ '"' :: rest))
                      = some (c :: cs, rest)
                    rw [parseStringBody.eq_def]
                    simp [h1, h2, ih]

theorem natDecimalAux_spec : ∀ (n : Nat) (acc : List Char),
    (∀ x ∈ acc, isDigitChar x = true) →
    (∀ x ∈ natDecimalAux n acc, isDigitChar x = true) ∧ natDecimalAux n acc ≠ []
  | n, acc, hacc => by
    unfold natDecimalAux
    by_cases h : n < 10
    · simp only [if_pos h]
      constructor
      · intro x hx
        rcases List.mem_cons.mp hx with h1 | h2
        · subst h1
          have hv : (Char.ofNat (48 + n)).toNat = 48 + n :=
            char_toNat_ofNat _ (Or.inl (by omega))
          simp [isDigitChar, hv]
          omega
        · exact hacc x h2
      · simp
    · simp only [if_neg h]
      refine natDecimalAux_spec (n / 10) _ ?_
      intro x hx
      rcases List.mem_cons.mp hx with h1 | h2
      · subst h1
        have hv : (Char.ofNat (48 + n % 10)).toNat = 48 + n % 10 :=
          char_toNat_ofNat _ (Or.inl (by omega))
        simp [isDigitChar, hv]
        omega
      · exact hacc x h2
termination_by n _ _ => n
decreasing_by exact Nat.div_lt_self (by omega) (by omega)

/-- The continuation after a number token must not begin with a digit. -/
def noDigitStart : List Char → Prop
  | [] => True
  | c :: _ => isDigitChar c = false

theorem spanDigits_exact : ∀ (ds r : List Char),
    (∀ x ∈ ds, isDigitChar x = true) → noDigitStart r →
    spanDigits (ds ++ r) = (ds, r)
  | [], r, _, hr => by
    cases r with
    | nil => rfl
    | cons c t =>
      have hc : isDigitChar c = false := hr
      simp [spanDigits, hc]
  | d :: ds, r, hds, hr => by
    have hd : isDigitChar d = true := hds d (List.mem_cons_self d ds)
    have ih := spanDigits_exact ds r (fun x hx => hds x (List.mem_cons_of_mem d hx)) hr
    simp [spanDigits, hd, ih]

theorem parse_intDecimal (n : Int) (r : List Char) (hr : noDigitStart r) :
    parseNumTok ((intDecimal n).data ++ r) = some (intDecimal n, r) := by
  by_cases hneg : n < 0
  · have hspec := natDecimalAux_spec (-n).toNat [] (by simp)
    cases hnd : natDecimal (-n).toNat with
    | nil => exact absurd hnd hspec.2
    | cons c cs =>
      have hdigits : ∀ x ∈ c :: cs, isDigitChar x = true := by
        rw [← hnd]
        exact hspec.1
      have hspan := spanDigits_exact (c :: cs) r hdigits hr
      have hspan' : spanDigits (c :: (cs ++ r)) = (c :: cs, r) := by
        simpa using hspan
      simp only [intDecimal, if_pos hneg]
      show parseNumTok (('-' :: natDecimal (-n).toNat) ++ r)
        = some (String.mk ('-' :: natDecimal (-n).toNat), r)
      rw [hnd]
      simp [parseNumTok, hspan']
  · have hspec := natDecimalAux_spec n.toNat [] (by simp)
    cases hnd : natDecimal n.toNat with
    | nil => exact absurd hnd hspec.2
    | cons c cs =>
      have hdigits : ∀ x ∈ c :: cs, isDigitChar x = true := by
        rw [← hnd]
        exact hspec.1
      have hc : isDigitChar c = true := hdigits c (List.mem_cons_self c cs)
      have hcne : ¬ (c = '-') := by
        intro hcc
        subst hcc
        simp [isDigitChar] at hc
      have hspan := spanDigits_exact (c :: cs) r hdigits hr
      have hspan' : spanDigits (c :: (cs ++ r)) = (c :: cs, r) := by
        simpa using hspan
      simp only [intDecimal, if_neg hneg]
      show parseNumTok (natDecimal n.toNat ++ r)
        = some (String.mk (natDecimal n.toNat), r)
      rw [hnd]
      simp [parseNumTok, hcne, hspan']

theorem intDecimal_head (n : Int) :
    ∃ c cs, (intDecimal n).data = c :: cs
      ∧ (c = '-' ∨ (48 ≤ c.toNat ∧ c.toNat ≤ 57)) := by
  by_cases hneg : n < 0
  · refine ⟨'-', natDecimal (-n).toNat, ?_, Or.inl rfl⟩
    simp [intDecimal, hneg]
  · have hspec := natDecimalAux_spec n.toNat [] (by simp)
    cases hnd : natDecimal n.toNat with
    | nil => exact absurd hnd hspec.2
    | cons c cs =>
      have hc : isDigitChar c = true := by
        refine hspec.1 c ?_
        rw [show natDecimalAux n.toNat [] = natDecimal n.toNat from rfl, hnd]
        exact List.mem_cons_self c cs
      refine ⟨c, cs, ?_, Or.inr ?_⟩
      · simp [intDecimal, hneg, hnd]
      · simpa [isDigitChar] using hc

theorem parseValue_ws (f : Nat) (c : Char) (hws : isWsChar c = true)
    (t : List Char) : parseValue (f + 1) (c :: t) = parseValue (f + 1) t := by
  have hs : skipWs (c :: t) = skipWs t := by simp [skipWs, hws]
  simp only [parseValue, hs]

theorem parseValue_str (g : Nat) (P r : List Char) :
    parseValue (g + 1) ('"' :: (escapeString P ++ '"' :: r))
      = some (JValue.str (String.mk P), r) := by
  have h := parse_escapeString P r
  simp [parseValue, skipWs, isWsChar, h]

theorem parseValue_int (g : Nat) (n : Int) (r : List Char) (hr : noDigitStart r) :
    parseValue (g + 1) ((intDecimal n).data ++ r)
      = some (JValue.num (intDecimal n), r) := by
  obtain ⟨c, cs, hd, hcn⟩ := intDecimal_head n
  have hnum := parse_intDecimal n r hr
  rw [hd] at hnum ⊢
  have hnum' : parseNumTok (c :: (cs ++ r)) = some (intDecimal n, r) := by
    simpa using hnum
  have hcn' : c.toNat = 45 ∨ (48 ≤ c.toNat ∧ c.toNat ≤ 57) := by
    rcases hcn with h | h
    · subst h; left; rfl
    · right; exact h
  have hnws : ¬ (c = ' ' ∨ c = '\n' ∨ c = '\t' ∨ c = '\r') := by
    intro h
    rcases h with h | h | h | h <;> subst h <;> revert hcn' <;> decide
  have hq : ¬ (c = '"') := by
    intro h; subst h; revert hcn'; decide
  have hlb : ¬ (c = '\x7b') := by
    intro h; subst h; revert hcn'; decide
  have hbk : ¬ (c = '[') := by
    intro h; subst h; revert hcn'; decide
  have hS : isWsChar c = false := by
    simp [isWsChar, hnws]
  show parseValue (g + 1) (c :: (cs ++ r)) = some (JValue.num (intDecimal n), r)
  simp [parseValue, skipWs, hS, hq, hlb, hbk, hnum']

theorem formatJSONLine_data_true (env : RenderEnv) (m : matchResult) :
    (formatJSONLine env m true).data
      = '\x7b' :: '"' :: 'p' :: 'a' :: 't' :: 'h' :: '"' :: ':' :: ' ' :: '"' ::
        (escapeString (formatPath env m.Path).data
          ++ '"' :: ',' :: ' ' :: '"' :: 's' :: 'i' :: 'z' :: 'e' :: '"' :: ':' :: ' ' ::
            ((intDecimal m.Size).data ++ ['\x7d'])) := by
  have hA : ("\x7b\"path\": " : String).data
      = ['\x7b', '"', 'p', 'a', 't', 'h', '"', ':', ' '] := by decide
  have hB : ((", \"size\": " : String)).data
      = [',', ' ', '"', 's', 'i', 'z', 'e', '"', ':', ' '] := by decide
  have hC : (("\x7d" : String)).data = ['\x7d'] := by decide
  simp [formatJSONLine, marshalString, String.data_append, hA, hB, hC]

theorem formatJSONLine_data_false (env : RenderEnv) (m : matchResult) :
    (formatJSONLine env m false).data
      = '\x7b' :: '"' :: 'p' :: 'a' :: 't' :: 'h' :: '"' :: ':' :: ' ' :: '"' ::
        (escapeString (formatPath env m.Path).data ++ '"' :: ['\x7d']) := by
  have hA : ("\x7b\"path\": " : String).data
      = ['\x7b', '"', 'p', 'a', 't', 'h', '"', ':', ' '] := by decide
  have hC : (("\x7d" : String)).data = ['\x7d'] := by decide
  simp [formatJSONLine, marshalString, String.data_append, hA, hC]

theorem parse_key_path (rest : List Char) :
    parseStringBody ('p' :: 'a' :: 't' :: 'h' :: '"' :: rest)
      = some (['p', 'a', 't', 'h'], rest) := by
  rw [parseStringBody.eq_def]
  simp
  rw [parseStringBody.eq_def]
  simp
  rw [parseStringBody.eq_def]
  simp
  rw [parseStringBody.eq_def]
  simp
  rw [parseStringBody.eq_def]
  simp

theorem parse_key_size (rest : List Char) :
    parseStringBody ('s' :: 'i' :: 'z' :: 'e' :: '"' :: rest)
      = some (['s', 'i', 'z', 'e'], rest) := by
  rw [parseStringBody.eq_def]
  simp
  rw [parseStringBody.eq_def]
  simp
  rw [parseStringBody.eq_def]
  simp
  rw [parseStringBody.eq_def]
  simp
  rw [parseStringBody.eq_def]
  simp

theorem noDigitStart_rb : noDigitStart ['\x7d'] := by
  show isDigitChar '\x7d' = false
  decide

theorem parseMembers_size (g : Nat) (n : Int) :
    parseMembers (g + 1 + 1)
        ('"' :: 's' :: 'i' :: 'z' :: 'e' :: '"' :: ':' :: ' ' ::
          ((intDecimal n).data ++ ['\x7d']))
      = some ([("size", JValue.num (intDecimal n))], []) := by
  have hv : parseValue (g + 1) (' ' :: ((intDecimal n).data ++ ['\x7d']))
      = some (JValue.num (intDecimal n), ['\x7d']) := by
    rw [parseValue_ws g ' ' (by decide)]
    exact parseValue_int g n ['\x7d'] noDigitStart_rb
  have hkey : String.mk ['s', 'i', 'z', 'e'] = "size" := rfl
  simp only [parseMembers]
  simp [parse_key_size, skipWs, isWsChar, hv, hkey]

theorem parseMembers_path_size (g : Nat) (env : RenderEnv) (m : matchResult) :
    parseMembers (g + 1 + 1 + 1)
        ('"' :: 'p' :: 'a' :: 't' :: 'h' :: '"' :: ':' :: ' ' :: '"' ::
          (escapeString (formatPath env m.Path).data
            ++ '"' :: ',' :: ' ' :: '"' :: 's' :: 'i' :: 'z' :: 'e' :: '"' :: ':' :: ' ' ::
              ((intDecimal m.Size).data ++ ['\x7d'])))
      = some ([("path", JValue.str (formatPath env m.Path)),
               ("size", JValue.num (intDecimal m.Size))], []) := by
  have hv : parseValue (g + 1 + 1)
      (' ' :: '"' :: (escapeString (formatPath env m.Path).data
        ++ '"' :: ',' :: ' ' :: '"' :: 's' :: 'i' :: 'z' :: 'e' :: '"' :: ':' :: ' ' ::
          ((intDecimal m.Size).data ++ ['\x7d'])))
      = some (JValue.str (formatPath env m.Path),
          ',' :: ' ' :: '"' :: 's' :: 'i' :: 'z' :: 'e' :: '"' :: ':' :: ' ' ::
            ((intDecimal m.Size).data ++ ['\x7d'])) := by
    rw [parseValue_ws (g + 1) ' ' (by decide)]
    have := parseValue_str (g + 1) (formatPath env m.Path).data
      (',' :: ' ' :: '"' :: 's' :: 'i' :: 'z' :: 'e' :: '"' :: ':' :: ' ' ::
        ((intDecimal m.Size).data ++ ['\x7d']))
    simpa using this
  have hv2 : parseValue (g + 1) (' ' :: ((intDecimal m.Size).data ++ ['\x7d']))
      = some (JValue.num (intDecimal m.Size), ['\x7d']) := by
    rw [parseValue_ws g ' ' (by decide)]
    exact parseValue_int g m.Size ['\x7d'] noDigitStart_rb
  have hkey : String.mk ['p', 'a', 't', 'h'] = "path" := rfl
  have hkey2 : String.mk ['s', 'i', 'z', 'e'] = "size" := rfl
  simp only [parseMembers]
  simp [parse_key_path, parse_key_size, skipWs, isWsChar, hv, hv2, hkey, hkey2]

theorem parseMembers_path_only (g : Nat) (env : RenderEnv) (m : matchResult) :
    parseMembers (g + 1 + 1)
        ('"' :: 'p' :: 'a' :: 't' :: 'h' :: '"' :: ':' :: ' ' :: '"' ::
          (escapeString (formatPath env m.Path).data ++ '"' :: ['\x7d']))
      = some ([("path", JValue.str (formatPath env m.Path))], []) := by
  have hv : parseValue (g + 1)
      (' ' :: '"' :: (escapeString (formatPath env m.Path).data
        ++ '"' :: ['\x7d']))
      = some (JValue.str (formatPath env m.Path), ['\x7d']) := by
    rw [parseValue_ws g ' ' (by decide)]
    have := parseValue_str g (formatPath env m.Path).data ['\x7d']
    simpa using this
  have hkey : String.mk ['p', 'a', 't', 'h'] = "path" := rfl
  simp only [parseMembers]
  simp [parse_key_path, skipWs, isWsChar, hv, hkey]

theorem formatJSONEntry_data_true (env : RenderEnv) (m : matchResult) :
    (formatJSONEntry env m true).data
      = ' ' :: ' ' :: ' ' :: ' ' :: '\x7b' :: '\n' :: ' ' :: ' ' :: ' ' :: ' '
          :: ' ' :: ' ' :: '"' :: 'p' :: 'a' :: 't' :: 'h' :: '"' :: ':' :: ' ' :: '"' ::
        (escapeString (formatPath env m.Path).data
          ++ '"' :: ',' :: '\n' :: ' ' :: ' ' :: ' ' :: ' ' :: ' ' :: ' '
              :: '"' :: 's' :: 'i' :: 'z' :: 'e' :: '"' :: ':' :: ' ' ::
            ((intDecimal m.Size).data
              ++ '\n' :: ' ' :: ' ' :: ' ' :: ' ' :: ['\x7d'])) := by
  have hA : ("    \x7b\n      \"path\": " : String).data
      = [' ', ' ', ' ', ' ', '\x7b', '\n', ' ', ' ', ' ', ' ', ' ', ' ',
         '"', 'p', 'a', 't', 'h', '"', ':', ' '] := by decide
  have hB : ((",\n      \"size\": " : String)).data
      = [',', '\n', ' ', ' ', ' ', ' ', ' ', ' ',
         '"', 's', 'i', 'z', 'e', '"', ':', ' '] := by decide
  have hC : (("\n    \x7d" : String)).data
      = ['\n', ' ', ' ', ' ', ' ', '\x7d'] := by decide
  simp [formatJSONEntry, marshalString, String.data_append, hA, hB, hC]

theorem formatJSONEntry_data_false (env : RenderEnv) (m : matchResult) :
    (formatJSONEntry env m false).data
      = ' ' :: ' ' :: ' ' :: ' ' :: '\x7b' :: '\n' :: ' ' :: ' ' :: ' ' :: ' '
          :: ' ' :: ' ' :: '"' :: 'p' :: 'a' :: 't' :: 'h' :: '"' :: ':' :: ' ' :: '"' ::
        (escapeString (formatPath env m.Path).data
          ++ '"' :: '\n' :: ' ' :: ' ' :: ' ' :: ' ' :: ['\x7d']) := by
  have hA : ("    \x7b\n      \"path\": " : String).data
      = [' ', ' ', ' ', ' ', '\x7b', '\n', ' ', ' ', ' ', ' ', ' ', ' ',
         '"', 'p', 'a', 't', 'h', '"', ':', ' '] := by decide
  have hC : (("\n    \x7d" : String)).data
      = ['\n', ' ', ' ', ' ', ' ', '\x7d'] := by decide
  simp [formatJSONEntry, marshalString, String.data_append, hA, hC]

theorem noDigitStart_nl (t : List Char) : noDigitStart ('\n' :: t) := by
  show isDigitChar '\n' = false
  decide

theorem parseMembersE_size (g : Nat) (n : Int) :
    parseMembers (g + 1 + 1)
        ('"' :: 's' :: 'i' :: 'z' :: 'e' :: '"' :: ':' :: ' ' ::
          ((intDecimal n).data ++ '\n' :: ' ' :: ' ' :: ' ' :: ' ' :: ['\x7d']))
      = some ([("size", JValue.num (intDecimal n))], []) := by
  have hv : parseValue (g + 1)
      (' ' :: ((intDecimal n).data ++ '\n' :: ' ' :: ' ' :: ' ' :: ' ' :: ['\x7d']))
      = some (JValue.num (intDecimal n),
          '\n' :: ' ' :: ' ' :: ' ' :: ' ' :: ['\x7d']) := by
    rw [parseValue_ws g ' ' (by decide)]
    exact parseValue_int g n ('\n' :: ' ' :: ' ' :: ' ' :: ' ' :: ['\x7d'])
      (noDigitStart_nl _)
  have hkey : String.mk ['s', 'i', 'z', 'e'] = "size" := rfl
  simp only [parseMembers]
  simp [parse_key_size, skipWs, isWsChar, hv, hkey]

theorem parseMembersE_path_size (g : Nat) (env : RenderEnv) (m : matchResult) :
    parseMembers (g + 1 + 1 + 1)
        ('"' :: 'p' :: 'a' :: 't' :: 'h' :: '"' :: ':' :: ' ' :: '"' ::
          (escapeString (formatPath env m.Path).data
            ++ '"' :: ',' :: '\n' :: ' ' :: ' ' :: ' ' :: ' ' :: ' ' :: ' '
                :: '"' :: 's' :: 'i' :: 'z' :: 'e' :: '"' :: ':' :: ' ' ::
              ((intDecimal m.Size).data
                ++ '\n' :: ' ' :: ' ' :: ' ' :: ' ' :: ['\x7d'])))
      = some ([("path", JValue.str (formatPath env m.Path)),
               ("size", JValue.num (intDecimal m.Size))], []) := by
  have hv : parseValue (g + 1 + 1)
      (' ' :: '"' :: (escapeString (formatPath env m.Path).data
        ++ '"' :: ',' :: '\n' :: ' ' :: ' ' :: ' ' :: ' ' :: ' ' :: ' '
            :: '"' :: 's' :: 'i' :: 'z' :: 'e' :: '"' :: ':' :: ' ' ::
          ((intDecimal m.Size).data ++ '\n' :: ' ' :: ' ' :: ' ' :: ' ' :: ['\x7d'])))
      = some (JValue.str (formatPath env m.Path),
          ',' :: '\n' :: ' ' :: ' ' :: ' ' :: ' ' :: ' ' :: ' '
            :: '"' :: 's' :: 'i' :: 'z' :: 'e' :: '"' :: ':' :: ' ' ::
              ((intDecimal m.Size).data
                ++ '\n' :: ' ' :: ' ' :: ' ' :: ' ' :: ['\x7d'])) := by
    rw [parseValue_ws (g + 1) ' ' (by decide)]
    have := parseValue_str (g + 1) (formatPath env m.Path).data
      (',' :: '\n' :: ' ' :: ' ' :: ' ' :: ' ' :: ' ' :: ' '
        :: '"' :: 's' :: 'i' :: 'z' :: 'e' :: '"' :: ':' :: ' ' ::
          ((intDecimal m.Size).data ++ '\n' :: ' ' :: ' ' :: ' ' :: ' ' :: ['\x7d']))
    simpa using this
  have hv2 : parseValue (g + 1)
      (' ' :: ((intDecimal m.Size).data ++ '\n' :: ' ' :: ' ' :: ' ' :: ' ' :: ['\x7d']))
      = some (JValue.num (intDecimal m.Size),
          '\n' :: ' ' :: ' ' :: ' ' :: ' ' :: ['\x7d']) := by
    rw [parseValue_ws g ' ' (by decide)]
    exact parseValue_int g m.Size ('\n' :: ' ' :: ' ' :: ' ' :: ' ' :: ['\x7d'])
      (noDigitStart_nl _)
  have hkey : String.mk ['p', 'a', 't', 'h'] = "path" := rfl
  have hkey2 : String.mk ['s', 'i', 'z', 'e'] = "size" := rfl
  simp only [parseMembers]
  simp [parse_key_path, parse_key_size, skipWs, isWsChar, hv, hv2, hkey, hkey2]

theorem parseMembersE_path_only (g : Nat) (env : RenderEnv) (m : matchResult) :
    parseMembers (g + 1 + 1)
        ('"' :: 'p' :: 'a' :: 't' :: 'h' :: '"' :: ':' :: ' ' :: '"' ::
          (escapeString (formatPath env m.Path).data
            ++ '"' :: '\n' :: ' ' :: ' ' :: ' ' :: ' ' :: ['\x7d']))
      = some ([("path", JValue.str (formatPath env m.Path))], []) := by
  have hv : parseValue (g + 1)
      (' ' :: '"' :: (escapeString (formatPath env m.Path).data
        ++ '"' :: '\n' :: ' ' :: ' ' :: ' ' :: ' ' :: ['\x7d']))
      = some (JValue.str (formatPath env m.Path),
          '\n' :: ' ' :: ' ' :: ' ' :: ' ' :: ['\x7d']) := by
    rw [parseValue_ws g ' ' (by decide)]
    have := parseValue_str g (formatPath env m.Path).data
      ('\n' :: ' ' :: ' ' :: ' ' :: ' ' :: ['\x7d'])
    simpa using this
  have hkey : String.mk ['p', 'a', 't', 'h'] = "path" := rfl
  simp only [parseMembers]
  simp [parse_key_path, skipWs, isWsChar, hv, hkey]

theorem parseLine_true (env : RenderEnv) (m : matchResult) (g : Nat) :
    parseValue (g + 1 + 1 + 1 + 1) ((formatJSONLine env m true).data)
      = some (JValue.obj [("path", JValue.str (formatPath env m.Path)),
          ("size", JValue.num (intDecimal m.Size))], []) := by
  rw [formatJSONLine_data_true]
  have hmem := parseMembers_path_size g env m
  have hmem3 : parseMembers (g + 3) _ = _ := hmem
  simp only [parseValue]
  simp [skipWs, isWsChar, hmem3]

theorem parseLine_false (env : RenderEnv) (m : matchResult) (g : Nat) :
    parseValue (g + 1 + 1 + 1) ((formatJSONLine env m false).data)
      = some (JValue.obj [("path", JValue.str (formatPath env m.Path))], []) := by
  rw [formatJSONLine_data_false]
  have hmem := parseMembers_path_only g env m
  have hmem2 : parseMembers (g + 2) _ = _ := hmem
  simp only [parseValue]
  simp [skipWs, isWsChar, hmem2]

theorem parseEntry_true (env : RenderEnv) (m : matchResult) (g : Nat) :
    parseValue (g + 1 + 1 + 1 + 1) ((formatJSONEntry env m true).data)
      = some (JValue.obj [("path", JValue.str (formatPath env m.Path)),
          ("size", JValue.num (intDecimal m.Size))], []) := by
  rw [formatJSONEntry_data_true]
  have hmem := parseMembersE_path_size g env m
  have hmem3 : parseMembers (g + 3) _ = _ := hmem
  simp only [parseValue]
  simp [skipWs, isWsChar, hmem3]

theorem parseEntry_false (env : RenderEnv) (m : matchResult) (g : Nat) :
    parseValue (g + 1 + 1 + 1) ((formatJSONEntry env m false).data)
      = some (JValue.obj [("path", JValue.str (formatPath env m.Path))], []) := by
  rw [formatJSONEntry_data_false]
  have hmem := parseMembersE_path_only g env m
  have hmem2 : parseMembers (g + 2) _ = _ := hmem
  simp only [parseValue]
  simp [skipWs, isWsChar, hmem2]

theorem parseJson_line (env : RenderEnv) (m : matchResult) (showSize : Bool) :
    parseJson (formatJSONLine env m showSize)
      = some (JValue.obj (("path", JValue.str (formatPath env m.Path))
          :: (if showSize then [("size", JValue.num (intDecimal m.Size))] else []))) := by
  cases showSize with
  | true =>
    have h := parseLine_true env m ((formatJSONLine env m true).data.length + 12)
    have h' : parseValue ((formatJSONLine env m true).data.length + 16)
        (formatJSONLine env m true).data
        = some (JValue.obj [("path", JValue.str (formatPath env m.Path)),
            ("size", JValue.num (intDecimal m.Size))], []) := h
    unfold parseJson
    rw [h']
    simp [skipWs]
  | false =>
    have h := parseLine_false env m ((formatJSONLine env m false).data.length + 13)
    have h' : parseValue ((formatJSONLine env m false).data.length + 16)
        (formatJSONLine env m false).data
        = some (JValue.obj [("path", JValue.str (formatPath env m.Path))], []) := h
    unfold parseJson
    rw [h']
    simp [skipWs]

theorem parseJson_entry (env : RenderEnv) (m : matchResult) (showSize : Bool) :
    parseJson (formatJSONEntry env m showSize)
      = some (JValue.obj (("path", JValue.str (formatPath env m.Path))
          :: (if showSize then [("size", JValue.num (intDecimal m.Size))] else []))) := by
  cases showSize with
  | true =>
    have h := parseEntry_true env m ((formatJSONEntry env m true).data.length + 12)
    have h' : parseValue ((formatJSONEntry env m true).data.length + 16)
        (formatJSONEntry env m true).data
        = some (JValue.obj [("path", JValue.str (formatPath env m.Path)),
            ("size", JValue.num (intDecimal m.Size))], []) := h
    unfold parseJson
    rw [h']
    simp [skipWs]
  | false =>
    have h := parseEntry_false env m ((formatJSONEntry env m false).data.length + 13)
    have h' : parseValue ((formatJSONEntry env m false).data.length + 16)
        (formatJSONEntry env m false).data
        = some (JValue.obj [("path", JValue.str (formatPath env m.Path))], []) := h
    unfold parseJson
    rw [h']
    simp [skipWs]

/-- C8: every emitted JSON object, in both JSON modes, parses back as a
JSON object that always carries a path field holding the render-time
absolute path, and carries a size field exactly when size-inclusion was
requested. -/
theorem render_json_roundtrip (env : RenderEnv) (m : matchResult) (showSize : Bool) :
    parseJson (formatJSONLine env m showSize)
      = some (JValue.obj (("path", JValue.str (formatPath env m.Path))
          :: (if showSize then [("size", JValue.num (intDecimal m.Size))] else []))) ∧
    parseJson (formatJSONEntry env m showSize)
      = some (JValue.obj (("path", JValue.str (formatPath env m.Path))
          :: (if showSize then [("size", JValue.num (intDecimal m.Size))] else []))) ∧
    "path" ∈ jsonKeys (parseJson (formatJSONLine env m showSize)) ∧
    ("size" ∈ jsonKeys (parseJson (formatJSONLine env m showSize)) ↔ showSize = true) ∧
    "path" ∈ jsonKeys (parseJson (formatJSONEntry env m showSize)) ∧
    ("size" ∈ jsonKeys (parseJson (formatJSONEntry env m showSize)) ↔ showSize = true) := by
  have h1 := parseJson_line env m showSize
  have h2 := parseJson_entry env m showSize
  refine ⟨h1, h2, ?_, ?_, ?_, ?_⟩ <;>
    cases showSize <;> simp [h1, h2, jsonKeys]

/-! ## Line structure of the pretty-JSON stream -/

/-- Split a character stream into its output lines (each '\n' ends a
line; a trailing newline produces no extra empty line). -/
def linesOf : List Char → List (List Char)
  | [] => []
  | c :: rest =>
    if c = '\n' then [] :: linesOf rest
    else
      match linesOf rest with
      | [] => [[c]]
      | l :: ls => (c :: l) :: ls

theorem linesOf_split : ∀ (a b : List Char), '\n' ∉ a →
    linesOf (a ++ '\n' :: b) = a :: linesOf b
  | [], b, _ => by simp [linesOf]
  | c :: a, b, h => by
    have hc : ¬ (c = '\n') := by
      intro hcc
      exact h (by rw [hcc]; exact List.mem_cons_self _ _)
    have ih := linesOf_split a b (fun hm => h (List.mem_cons_of_mem c hm))
    simp only [List.cons_append, linesOf, if_neg hc, List.append_eq, ih]

theorem hexDigit_ne_newline : ∀ d : Nat, d < 16 → hexDigit d ≠ '\n' := by
  decide

theorem uEscape_no_newline (t : Nat) : '\n' ∉ uEscape t := by
  intro hmem
  simp only [uEscape] at hmem
  rcases List.mem_cons.mp hmem with h | hmem2
  · exact absurd h (by decide)
  rcases List.mem_cons.mp hmem2 with h | hmem3
  · exact absurd h (by decide)
  rcases List.mem_cons.mp hmem3 with h | hmem4
  · exact hexDigit_ne_newline _ (Nat.mod_lt _ (by omega)) h.symm
  rcases List.mem_cons.mp hmem4 with h | hmem5
  · exact hexDigit_ne_newline _ (Nat.mod_lt _ (by omega)) h.symm
  rcases List.mem_cons.mp hmem5 with h | hmem6
  · exact hexDigit_ne_newline _ (Nat.mod_lt _ (by omega)) h.symm
  rcases List.mem_cons.mp hmem6 with h | hmem7
  · exact hexDigit_ne_newline _ (Nat.mod_lt _ (by omega)) h.symm
  exact absurd hmem7 (List.not_mem_nil _)

theorem escapeChar_no_newline (c : Char) : '\n' ∉ escapeChar c := by
  unfold escapeChar
  by_cases h1 : c = '"'
  · simp [h1]
  · by_cases h2 : c = '\\'
    · simp [h1, h2]
    · by_cases h3 : c = '\n'
      · simp [h1, h2, h3]
      · by_cases h4 : c = '\r'
        · simp [h1, h2, h3, h4]
        · by_cases h5 : c = '\t'
          · simp [h1, h2, h3, h4, h5]
          · simp only [if_neg h1, if_neg h2, if_neg h3, if_neg h4, if_neg h5]
            by_cases h6 : c = '<' ∨ c = '>' ∨ c = '&'
            · simp only [if_pos h6]
              exact uEscape_no_newline _
            · simp only [if_neg h6]
              by_cases h7 : c.toNat < 32
              · simp only [if_pos h7]
                exact uEscape_no_newline _
              · simp only [if_neg h7]
                by_cases h8 : c.toNat = 8232 ∨ c.toNat = 8233
                · simp only [if_pos h8]
                  exact uEscape_no_newline _
                · simp only [if_neg h8]
                  simp
                  intro hcc
                  exact h3 hcc.symm

theorem escapeString_no_newline : ∀ cs : List Char, '\n' ∉ escapeString cs
  | [] => by simp [escapeString]
  | c :: cs => by
    simp only [escapeString]
    intro hmem
    rcases List.mem_append.mp hmem with h | h
    · exact escapeChar_no_newline c h
    · exact escapeString_no_newline cs h

theorem marshal_no_newline (s : String) : '\n' ∉ (marshalString s).data := by
  intro hmem
  have hmem' : '\n' ∈ ('"' :: (escapeString s.data ++ ['"'])) := by
    simpa [marshalString] using hmem
  rcases List.mem_cons.mp hmem' with h | h
  · exact absurd h (by decide)
  · rcases List.mem_append.mp h with h2 | h2
    · exact escapeString_no_newline s.data h2
    · rcases List.mem_cons.mp h2 with h3 | h3
      · exact absurd h3 (by decide)
      · exact absurd h3 (List.not_mem_nil _)

theorem intDecimal_no_newline (n : Int) : '\n' ∉ (intDecimal n).data := by
  intro hmem
  by_cases hneg : n < 0
  · have hmem' : '\n' ∈ ('-' :: natDecimal (-n).toNat) := by
      simpa [intDecimal, hneg] using hmem
    rcases List.mem_cons.mp hmem' with h | h
    · exact absurd h (by decide)
    · have := (natDecimalAux_spec (-n).toNat [] (by simp)).1 '\n' h
      simp [isDigitChar] at this
  · have hmem' : '\n' ∈ natDecimal n.toNat := by
      simpa [intDecimal, hneg] using hmem
    have := (natDecimalAux_spec n.toNat [] (by simp)).1 '\n' hmem'
    simp [isDigitChar] at this

/-- The "    \x7b" line opening an entry. -/
def openLineC : List Char := [' ', ' ', ' ', ' ', '\x7b']

/-- The "    \x7d" line closing the final entry. -/
def closeLineC : List Char := [' ', ' ', ' ', ' ', '\x7d']

/-- The "    \x7d," line closing every non-final entry: the separating
comma sits immediately after the closing entry brace on the same line. -/
def sepLineC : List Char := [' ', ' ', ' ', ' ', '\x7d', ',']

/-- The path field line of an entry. -/
def pathLineC (env : RenderEnv) (m : matchResult) (withComma : Bool) : List Char :=
  [' ', ' ', ' ', ' ', ' ', ' ', '"', 'p', 'a', 't', 'h', '"', ':', ' ']
    ++ (marshalString (formatPath env m.Path)).data
    ++ (if withComma then [','] else [])

/-- The size field line of an entry. -/
def sizeLineC (m : matchResult) : List Char :=
  [' ', ' ', ' ', ' ', ' ', ' ', '"', 's', 'i', 'z', 'e', '"', ':', ' ']
    ++ (intDecimal m.Size).data

/-- The lines one rendered entry contributes to the stream. -/
def entryLines (env : RenderEnv) (m : matchResult) (showSize withComma : Bool) :
    List (List Char) :=
  if showSize then
    [openLineC, pathLineC env m true, sizeLineC m,
     closeLineC ++ (if withComma then [','] else [])]
  else
    [openLineC, pathLineC env m false,
     closeLineC ++ (if withComma then [','] else [])]

theorem pathLineC_no_newline (env : RenderEnv) (m : matchResult)
    (wc : Bool) : '\n' ∉ pathLineC env m wc := by
  intro hmem
  have hm := marshal_no_newline (formatPath env m.Path)
  cases wc <;> simp [pathLineC, hm] at hmem

theorem sizeLineC_no_newline (m : matchResult) : '\n' ∉ sizeLineC m := by
  intro hmem
  have hm := intDecimal_no_newline m.Size
  simp [sizeLineC, hm] at hmem

theorem linesOf_entry (env : RenderEnv) (m : matchResult)
    (showSize withComma : Bool) (tail : List Char) :
    linesOf ((formatJSONEntry env m showSize).data
        ++ ((if withComma then [','] else []) ++ '\n' :: tail))
      = entryLines env m showSize withComma ++ linesOf tail := by
  have hclose : '\n' ∉ closeLineC ++ (if withComma then [','] else []) := by
    cases withComma <;> simp [closeLineC]
  cases showSize with
  | true =>
    have hshape : (formatJSONEntry env m true).data
          ++ ((if withComma then [','] else []) ++ '\n' :: tail)
        = openLineC ++ '\n' :: (pathLineC env m true ++ '\n' :: (sizeLineC m
            ++ '\n' :: ((closeLineC ++ (if withComma then [','] else []))
              ++ '\n' :: tail))) := by
      rw [formatJSONEntry_data_true]
      cases withComma <;>
        simp [openLineC, pathLineC, sizeLineC, closeLineC, marshalString]
    rw [hshape, linesOf_split _ _ (by decide),
      linesOf_split _ _ (pathLineC_no_newline env m true),
      linesOf_split _ _ (sizeLineC_no_newline m),
      linesOf_split _ _ hclose]
    simp [entryLines]
  | false =>
    have hshape : (formatJSONEntry env m false).data
          ++ ((if withComma then [','] else []) ++ '\n' :: tail)
        = openLineC ++ '\n' :: (pathLineC env m false
            ++ '\n' :: ((closeLineC ++ (if withComma then [','] else []))
              ++ '\n' :: tail)) := by
      rw [formatJSONEntry_data_false]
      cases withComma <;>
        simp [openLineC, pathLineC, closeLineC, marshalString]
    rw [hshape, linesOf_split _ _ (by decide),
      linesOf_split _ _ (pathLineC_no_newline env m false),
      linesOf_split _ _ hclose]
    simp [entryLines]

/-- The lines contributed per entry across the whole look-ahead loop:
every entry but the last carries the separating comma. -/
def bodyLines (env : RenderEnv) (showSize : Bool) :
    matchResult → List matchResult → List (List Char)
  | curr, [] => entryLines env curr showSize false
  | curr, next :: rest =>
    entryLines env curr showSize true ++ bodyLines env showSize next rest

theorem prettyBody_lines (env : RenderEnv) (showSize : Bool) :
    ∀ (curr : matchResult) (rest : List matchResult) (tail : List Char),
      linesOf ((prettyBody env showSize curr rest).data ++ tail)
        = bodyLines env showSize curr rest ++ linesOf tail
  | curr, [], tail => by
    have h := linesOf_entry env curr showSize false tail
    have hd : (prettyBody env showSize curr []).data ++ tail
        = (formatJSONEntry env curr showSize).data
            ++ (([] : List Char) ++ '\n' :: tail) := by
      have hn : ("\n" : String).data = ['\n'] := by decide
      simp [prettyBody, String.data_append, hn]
    rw [hd]
    simpa [bodyLines] using h
  | curr, next :: rest, tail => by
    have ih := prettyBody_lines env showSize next rest tail
    have h := linesOf_entry env curr showSize true
      ((prettyBody env showSize next rest).data ++ tail)
    have hd : (prettyBody env showSize curr (next :: rest)).data ++ tail
        = (formatJSONEntry env curr showSize).data
            ++ ([','] ++ '\n' :: ((prettyBody env showSize next rest).data ++ tail)) := by
      have hn : (",\n" : String).data = [',', '\n'] := by decide
      simp [prettyBody, String.data_append, hn]
    rw [hd]
    simp only [if_pos] at h
    simpa [bodyLines, ih, List.append_assoc] using h

theorem prettyOutput_lines (env : RenderEnv) (showSize : Bool)
    (first : matchResult) (rest : List matchResult) :
    linesOf (prettyOutput env (first :: rest) showSize).data
      = ['\x7b'] :: [' ', ' ', '"', 'e', 'n', 't', 'r', 'i', 'e', 's', '"', ':', ' ', '[']
          :: (bodyLines env showSize first rest
            ++ [[' ', ' ', ']'], ['\x7d']]) := by
  have hd : (prettyOutput env (first :: rest) showSize).data
      = ['\x7b'] ++ '\n' ::
          ([' ', ' ', '"', 'e', 'n', 't', 'r', 'i', 'e', 's', '"', ':', ' ', '[']
            ++ '\n' ::
              ((prettyBody env showSize first rest).data
                ++ [' ', ' ', ']', '\n', '\x7d', '\n'])) := by
    have h1 : ("\x7b\n" : String).data = ['\x7b', '\n'] := by decide
    have h2 : ("  \"entries\": [\n" : String).data
        = [' ', ' ', '"', 'e', 'n', 't', 'r', 'i', 'e', 's', '"', ':', ' ', '[', '\n'] := by
      decide
    have h3 : ("  ]\n" : String).data = [' ', ' ', ']', '\n'] := by decide
    have h4 : ("\x7d\n" : String).data = ['\x7d', '\n'] := by decide
    simp [prettyOutput, String.data_append, h1, h2, h3, h4]
  have h5 : linesOf [' ', ' ', ']', '\n', '\x7d', '\n']
      = [[' ', ' ', ']'], ['\x7d']] := by decide
  rw [hd, linesOf_split _ _ (by decide), linesOf_split _ _ (by decide),
    prettyBody_lines, h5]

theorem pathLineC_ne_short (env : RenderEnv) (m : matchResult) (wc : Bool)
    (l : List Char) (hl : l.length < 16) : pathLineC env m wc ≠ l := by
  intro h
  have hlen := congrArg List.length h
  simp [pathLineC, marshalString] at hlen
  cases wc <;> simp at hlen <;> omega

theorem sizeLineC_ne_short (m : matchResult) (l : List Char)
    (hl : l.length < 14) : sizeLineC m ≠ l := by
  intro h
  have hlen := congrArg List.length h
  simp [sizeLineC] at hlen
  omega

theorem entryLines_counts (env : RenderEnv) (m : matchResult) (showSize : Bool) :
    (entryLines env m showSize true).count sepLineC = 1 ∧
    (entryLines env m showSize false).count sepLineC = 0 ∧
    (entryLines env m showSize true).count closeLineC = 0 ∧
    (entryLines env m showSize false).count closeLineC = 1 ∧
    [','] ∉ entryLines env m showSize true ∧
    [','] ∉ entryLines env m showSize false := by
  have hp1 : pathLineC env m true ≠ sepLineC :=
    pathLineC_ne_short env m true sepLineC (by decide)
  have hp2 : pathLineC env m false ≠ sepLineC :=
    pathLineC_ne_short env m false sepLineC (by decide)
  have hp3 : pathLineC env m true ≠ closeLineC :=
    pathLineC_ne_short env m true closeLineC (by decide)
  have hp4 : pathLineC env m false ≠ closeLineC :=
    pathLineC_ne_short env m false closeLineC (by decide)
  have hp5 : pathLineC env m true ≠ [','] :=
    pathLineC_ne_short env m true [','] (by decide)
  have hp6 : pathLineC env m false ≠ [','] :=
    pathLineC_ne_short env m false [','] (by decide)
  have hs1 : sizeLineC m ≠ sepLineC := sizeLineC_ne_short m sepLineC (by decide)
  have hs2 : sizeLineC m ≠ closeLineC := sizeLineC_ne_short m closeLineC (by decide)
  have hs3 : sizeLineC m ≠ [','] := sizeLineC_ne_short m [','] (by decide)
  have hp5s : ¬ ([','] = pathLineC env m true) := fun h => hp5 h.symm
  have hp6s : ¬ ([','] = pathLineC env m false) := fun h => hp6 h.symm
  have hs3s : ¬ ([','] = sizeLineC m) := fun h => hs3 h.symm
  have hcs : closeLineC ++ [','] = sepLineC := by decide
  have ho1 : openLineC ≠ sepLineC := by decide
  have ho2 : openLineC ≠ closeLineC := by decide
  have ho3 : ¬ ([','] = openLineC) := by decide
  have hcc1 : closeLineC ≠ sepLineC := by decide
  have hcc2 : sepLineC ≠ closeLineC := by decide
  have hcc3 : ¬ ([','] = sepLineC) := by decide
  have hcc4 : ¬ ([','] = closeLineC) := by decide
  cases showSize <;>
    simp [entryLines, List.count_cons, hcs, ho1, ho2, ho3, hcc1, hcc2, hcc3,
      hcc4, hp1, hp2, hp3, hp4, hp5, hp6, hs1, hs2, hs3, hp5s, hp6s, hs3s]

theorem bodyLines_counts (env : RenderEnv) (showSize : Bool) :
    ∀ (curr : matchResult) (rest : List matchResult),
      (bodyLines env showSize curr rest).count sepLineC = rest.length ∧
      (bodyLines env showSize curr rest).count closeLineC = 1 ∧
      [','] ∉ bodyLines env showSize curr rest
  | curr, [] => by
    have h := entryLines_counts env curr showSize
    refine ⟨?_, ?_, ?_⟩
    · simpa [bodyLines] using h.2.1
    · simpa [bodyLines] using h.2.2.2.1
    · simpa [bodyLines] using h.2.2.2.2.2
  | curr, next :: rest => by
    have h := entryLines_counts env curr showSize
    have ih := bodyLines_counts env showSize next rest
    refine ⟨?_, ?_, ?_⟩
    · simp [bodyLines, List.count_append, h.1, ih.1]
      omega
    · simp [bodyLines, List.count_append, h.2.2.1, ih.2.1]
    · simp [bodyLines]
      exact ⟨h.2.2.2.2.1, ih.2.2⟩

/-- C7: in pretty-JSON mode with at least two matches the output contains
exactly N−1 separating commas, each sitting at the end of a closing entry
brace line ("    \x7d,"), exactly one final bare closing-brace entry line,
and never a comma alone on a line; with zero matches the output parses as
a JSON object holding an empty entries array. -/
theorem pretty_comma_placement (env : RenderEnv) (ms : List matchResult)
    (showSize : Bool) :
    (2 ≤ ms.length →
      (linesOf (prettyOutput env ms showSize).data).count sepLineC
          = ms.length - 1 ∧
      (linesOf (prettyOutput env ms showSize).data).count closeLineC = 1 ∧
      [','] ∉ linesOf (prettyOutput env ms showSize).data) ∧
    (ms = [] →
      parseJson (prettyOutput env ms showSize)
        = some (JValue.obj [("entries", JValue.arr [])])) := by
  constructor
  · intro hlen
    cases ms with
    | nil => simp at hlen
    | cons first rest1 =>
      rw [prettyOutput_lines env showSize first rest1]
      have hb := bodyLines_counts env showSize first rest1
      have d1 : (['\x7b'] : List Char) ≠ sepLineC := by decide
      have d2 : ([' ', ' ', '"', 'e', 'n', 't', 'r', 'i', 'e', 's', '"', ':', ' ', '[']
          : List Char) ≠ sepLineC := by decide
      have d3 : (['\x7b'] : List Char) ≠ closeLineC := by decide
      have d4 : ([' ', ' ', '"', 'e', 'n', 't', 'r', 'i', 'e', 's', '"', ':', ' ', '[']
          : List Char) ≠ closeLineC := by decide
      have d5 : ([' ', ' ', ']'] : List Char) ≠ sepLineC := by decide
      have d6 : (['\x7d'] : List Char) ≠ sepLineC := by decide
      have d7 : ([' ', ' ', ']'] : List Char) ≠ closeLineC := by decide
      have d8 : (['\x7d'] : List Char) ≠ closeLineC := by decide
      have d9 : ¬ (([','] : List Char) = ['\x7b']) := by decide
      have d10 : ¬ (([','] : List Char)
          = [' ', ' ', '"', 'e', 'n', 't', 'r', 'i', 'e', 's', '"', ':', ' ', '[']) := by
        decide
      have d11 : ¬ (([','] : List Char) = [' ', ' ', ']']) := by decide
      have d12 : ¬ (([','] : List Char) = ['\x7d']) := by decide
      refine ⟨?_, ?_, ?_⟩
      · simp [List.count_cons, List.count_append, hb.1, d1, d2, d5, d6]
      · simp [List.count_cons, List.count_append, hb.2.1, d3, d4, d7, d8]
      · simp [d9, d10, d11, d12]
        exact hb.2.2
  · intro hms
    subst hms
    rfl

/-- Witness for C7: two concrete sized matches produce one "    \x7d,"
separator line and no lone-comma line, and the empty output parses as an
empty entries object. -/
theorem pretty_comma_placement_witness :
    (linesOf (prettyOutput ⟨some "/c", fun s => s⟩
        [⟨"a", 1⟩, ⟨"b", 2⟩] true).data).count sepLineC = 1 ∧
    [','] ∉ linesOf (prettyOutput ⟨some "/c", fun s => s⟩
        [⟨"a", 1⟩, ⟨"b", 2⟩] true).data ∧
    parseJson (prettyOutput ⟨some "/c", fun s => s⟩ ([] : List matchResult) true)
      = some (JValue.obj [("entries", JValue.arr [])]) := by
  have h := pretty_comma_placement ⟨some "/c", fun s => s⟩
    [⟨"a", 1⟩, ⟨"b", 2⟩] true
  have h2 := pretty_comma_placement ⟨some "/c", fun s => s⟩
    ([] : List matchResult) true
  exact ⟨(h.1 (by decide)).1, (h.1 (by decide)).2.2, h2.2 rfl⟩

/-- C9 as stated is false on the code: when os.Getwd fails (cwd = none)
and the recorded path is relative, formatPath falls back to the raw path,
so the rendered value "rel.db" is not an absolute form. -/
theorem rendered_path_not_always_absolute :
    formatPlainMatch ⟨none, fun s => s⟩ ⟨"rel.db", 7⟩ false = "rel.db" ∧
    isAbsPath "rel.db" = false ∧
    absPath ⟨none, fun s => s⟩ "rel.db" = none := by
  refine ⟨rfl, by decide, rfl⟩

/-- C9 (amended): in every output mode the rendered path value is the
render-time absolute form (filepath.Abs) of the recorded path whenever
Abs succeeds — in particular whenever the recorded path is already
absolute, or the working directory is available — regardless of whether
the queue entry was absolute; when Abs fails the raw recorded path is
rendered unchanged. -/
theorem rendered_path_absolute (env : RenderEnv) (m : matchResult)
    (showSize : Bool) :
    (∀ ap, absPath env m.Path = some ap → formatPath env m.Path = ap) ∧
    (absPath env m.Path = none → formatPath env m.Path = m.Path) ∧
    (isAbsPath m.Path = true → formatPath env m.Path = env.clean m.Path) ∧
    (∀ wd, env.cwd = some wd → isAbsPath m.Path = false →
      formatPath env m.Path = env.clean (wd ++ "/" ++ m.Path)) ∧
    formatPlainMatch env m false = formatPath env m.Path ∧
    formatPlainMatch env m true
      = formatPath env m.Path ++ " (" ++ intDecimal m.Size ++ " bytes)" ∧
    parseJson (formatJSONLine env m showSize)
      = some (JValue.obj (("path", JValue.str (formatPath env m.Path))
          :: (if showSize then [("size", JValue.num (intDecimal m.Size))] else []))) ∧
    parseJson (formatJSONEntry env m showSize)
      = some (JValue.obj (("path", JValue.str (formatPath env m.Path))
          :: (if showSize then [("size", JValue.num (intDecimal m.Size))] else []))) := by
  refine ⟨?_, ?_, ?_, ?_, ?_, ?_, parseJson_line env m showSize,
    parseJson_entry env m showSize⟩
  · intro ap h
    simp [formatPath, h]
  · intro h
    simp [formatPath, h]
  · intro h
    simp [formatPath, absPath, h]
  · intro wd h1 h2
    simp [formatPath, absPath, h1, h2]
  · simp [formatPlainMatch]
  · simp [formatPlainMatch]

/-- Witness for the amended C9: a relative queue path is rendered as its
absolute form when the working directory is available. -/
theorem rendered_path_absolute_witness :
    formatPath ⟨some "/w", fun s => s⟩ "rel.db" = "/w/rel.db" ∧
    formatPlainMatch ⟨some "/w", fun s => s⟩ ⟨"rel.db", 5⟩ false = "/w/rel.db" := by
  have h := rendered_path_absolute ⟨some "/w", fun s => s⟩ ⟨"rel.db", 5⟩ false
  have h4 := h.2.2.2.1 "/w" rfl (by decide)
  have h5 := h.2.2.2.2.1
  constructor
  · rw [h4]
    rfl
  · rw [h5, h4]
    rfl
